import Mathlib

/-!
# memstats: snapshot store, diff engine and report formatter

A shallow embedding of `memstats.go` (package `memstats`).

Conventions of the embedding

* Go `uint64` / `uint32` values are natural numbers; every operation that can
  wrap is written with an explicit `% 2^64` / `% 2^32`.
* Go `int` is taken to be 64 bits wide, so `int(x)` of a `uint32` is `x` itself.
* `time.Duration` (an `int64` count of nanoseconds) is an `Int`; conversions from
  `uint64` go through `toInt64`.
* A run-time panic of `Collect` or `ReadDiff` (index out of range, slice bounds
  out of range) is the result `none`.  The formatter's panics carry their
  message: `Diff.String` and `sbytes` return `Except String`, with the explicit
  `panic("bad type")` as `.error "bad type"`.
* A method with a pointer receiver returns the new value of the pointee.
-/

namespace Memstats

/-! ## Machine arithmetic -/

/-- The modulus of `uint64` arithmetic. -/
def two64 : Nat := 18446744073709551616

/-- The modulus of `uint32` arithmetic. -/
def two32 : Nat := 4294967296

/-- Go `a - b` on `uint64` operands: subtraction modulo `2^64`. -/
def sub64 (a b : Nat) : Nat := (a % two64 + (two64 - b % two64)) % two64

/-- Go `a - b` on `uint32` operands: subtraction modulo `2^32`. -/
def sub32 (a b : Nat) : Nat := (a % two32 + (two32 - b % two32)) % two32

/-- Go conversion `time.Duration(x)` (that is `int64(x)`) of a `uint64`:
the two's-complement reinterpretation of the low 64 bits. -/
def toInt64 (x : Nat) : Int :=
  if x % two64 < 9223372036854775808 then ((x % two64 : Nat) : Int)
  else ((x % two64 : Nat) : Int) - 18446744073709551616

/-! ## The runtime's statistics record and the clock

`time.Time` is modelled by a single count of nanoseconds; `Sub` is the
documented behaviour of `Time.Sub`, saturation included. -/

/-- The fields of `runtime.MemStats` that the package reads.  `PauseNs` is the
fixed-size array `[256]uint64`. -/
structure MemStats where
  Alloc : Nat
  TotalAlloc : Nat
  Mallocs : Nat
  Frees : Nat
  HeapAlloc : Nat
  HeapSys : Nat
  HeapObjects : Nat
  PauseTotalNs : Nat
  PauseNs : Fin 256 → Nat
  NumGC : Nat

/-- The zero value of `runtime.MemStats`. -/
def MemStats.zero : MemStats :=
  { Alloc := 0, TotalAlloc := 0, Mallocs := 0, Frees := 0, HeapAlloc := 0, HeapSys := 0,
    HeapObjects := 0, PauseTotalNs := 0, PauseNs := fun _ => 0, NumGC := 0 }

/-- Every field of the record is in the range of its Go type. -/
def MemStats.InRange (m : MemStats) : Prop :=
  m.Alloc < two64 ∧ m.TotalAlloc < two64 ∧ m.Mallocs < two64 ∧ m.Frees < two64 ∧
  m.HeapAlloc < two64 ∧ m.HeapSys < two64 ∧ m.HeapObjects < two64 ∧
  m.PauseTotalNs < two64 ∧ (∀ j, m.PauseNs j < two64) ∧ m.NumGC < two32

/-- An instant `time.Time`, as a count of nanoseconds from the zero time. -/
structure Time where
  ns : Int
deriving DecidableEq, Repr

/-- The zero value of `time.Time`. -/
def Time.zero : Time := ⟨0⟩

/-- The largest `time.Duration`. -/
def maxDuration : Int := 9223372036854775807

/-- The smallest `time.Duration`. -/
def minDuration : Int := -9223372036854775808

/-- Go `t.Sub(u)`: the duration `t - u`, replaced by the largest (smallest)
duration when the difference does not fit in a `time.Duration`. -/
def Time.Sub (t u : Time) : Int :=
  if t.ns - u.ns > maxDuration then maxDuration
  else if t.ns - u.ns < minDuration then minDuration
  else t.ns - u.ns

/-! ## Slices of durations -/

/-- A non-nil Go slice `[]time.Duration`: `elems` are the `len` visible
elements, `spare` the elements of the backing array between `len` and `cap`. -/
structure Slice where
  elems : List Int
  spare : List Int
deriving DecidableEq, Repr

/-- Go `len(p)`. -/
def Slice.len (p : Slice) : Nat := p.elems.length

/-- Go `cap(p)`. -/
def Slice.cap (p : Slice) : Nat := p.elems.length + p.spare.length

/-- Go `make([]time.Duration, n)`. -/
def Slice.make (n : Nat) : Slice := ⟨List.replicate n 0, []⟩

/-- Go `p[:n]` for `0 ≤ n`: panics when `n` exceeds the capacity. -/
def Slice.reslice (p : Slice) (n : Nat) : Option Slice :=
  if n ≤ p.cap then some ⟨(p.elems ++ p.spare).take n, (p.elems ++ p.spare).drop n⟩
  else none

/-! ## Diff and Stats -/

/-- The delta between two `runtime.MemStats` taken at two points in time.
`Pause = none` is the nil slice. -/
structure Diff where
  Delta : Int
  Alloc : Nat
  TotalAlloc : Nat
  Mallocs : Nat
  Frees : Nat
  HeapAlloc : Nat
  HeapSys : Nat
  HeapObjects : Nat
  PauseTotal : Int
  Pause : Option Slice
  PausesMissing : Bool
  NumGC : Nat
deriving DecidableEq, Repr

/-- The zero value of `Diff` (`var diff memstats.Diff`). -/
def Diff.zero : Diff :=
  { Delta := 0, Alloc := 0, TotalAlloc := 0, Mallocs := 0, Frees := 0, HeapAlloc := 0,
    HeapSys := 0, HeapObjects := 0, PauseTotal := 0, Pause := none, PausesMissing := false,
    NumGC := 0 }

/-- The visible elements of `d.Pause` (none for the nil slice). -/
def Diff.pauses (d : Diff) : List Int :=
  match d.Pause with
  | none => []
  | some p => p.elems

/-- The two-slot store: `ms` and `t` are the arrays `[2]runtime.MemStats` and
`[2]time.Time`, `i` is the Go `int` naming the next slot to fill. -/
structure Stats where
  ms : Fin 2 → MemStats
  t : Fin 2 → Time
  i : Int
  filled : Bool

/-- The zero value of `Stats` (`new(memstats.Stats)`). -/
def Stats.zero : Stats :=
  { ms := fun _ => MemStats.zero, t := fun _ => Time.zero, i := 0, filled := false }

/-- Bounds check of an index into an array of length 2. -/
def slot (k : Int) : Option (Fin 2) :=
  if k = 0 then some 0 else if k = 1 then some 1 else none

/-! ## Collect and ReadDiff -/

/-- `Stats.Collect`, with the two readings of the environment (`time.Now()` and
`runtime.ReadMemStats`) passed in as `now` and `m`. -/
def Stats.Collect (s : Stats) (now : Time) (m : MemStats) : Option Stats :=
  match slot s.i with
  | none => none
  | some k =>
    let i := 1 - s.i
    some { ms := Function.update s.ms k m
           t := Function.update s.t k now
           i := i
           filled := if i = 0 then true else s.filled }

/-- Bounds-checked read `cur.PauseNs[j]`. -/
def pauseNsAt (cur : MemStats) (j : Int) : Option Nat :=
  if h : 0 ≤ j ∧ j < 256 then some (cur.PauseNs ⟨j.toNat, by omega⟩) else none

/-- One iteration of the loop of `ReadDiff` on the visible elements `p`. -/
def pauseStep (cur : MemStats) (p : List Int) (i : Nat) : Option (List Int) :=
  match pauseNsAt cur (Int.tmod ((cur.NumGC : Int) - (i : Int) + 255) 256) with
  | none => none
  | some v => if i < p.length then some (p.set i (toInt64 v)) else none

/-- The loop `for i := range diff.Pause` of `ReadDiff`. -/
def fillPause (cur : MemStats) (p : List Int) : Option (List Int) :=
  (List.range p.length).foldlM (pauseStep cur) p

/-- `Stats.ReadDiff`: the new value of `*diff` and the result `ok`. -/
def Stats.ReadDiff (s : Stats) (diff : Diff) : Option (Diff × Bool) :=
  if !s.filled then some (diff, false)
  else
    let i1 := s.i
    let i2 := 1 - s.i
    match slot i1, slot i2 with
    | some k1, some k2 =>
      let prev := s.ms k1
      let cur := s.ms k2
      let diff := { diff with Delta := (s.t k2).Sub (s.t k1) }
      if diff.Delta < 0 then some (diff, false)
      else
        let diff := { diff with
          Alloc := cur.Alloc
          TotalAlloc := sub64 cur.TotalAlloc prev.TotalAlloc
          Mallocs := sub64 cur.Mallocs prev.Mallocs
          Frees := sub64 cur.Frees prev.Frees
          HeapAlloc := cur.HeapAlloc
          HeapSys := sub64 cur.HeapSys prev.HeapSys
          HeapObjects := cur.HeapObjects
          PauseTotal := toInt64 (sub64 cur.PauseTotalNs prev.PauseTotalNs)
          NumGC := sub32 cur.NumGC prev.NumGC
          PausesMissing := false }
        let pause := match diff.Pause with
          | none => Slice.make 256
          | some p => p
        let n := diff.NumGC
        let diff := if n > 256 then { diff with PausesMissing := true } else diff
        let n := if n > 256 then 256 else n
        match pause.reslice n with
        | none => none
        | some p =>
          match fillPause cur p.elems with
          | none => none
          | some es => some ({ diff with Pause := some ⟨es, p.spare⟩ }, true)
    | _, _ => none

/-- A sample: what one call of `Collect` reads from the environment. -/
abbrev Sample := Time × MemStats

/-- Calls of `Collect` in order, one per sample. -/
def collectAll (s : Stats) (xs : List Sample) : Option Stats :=
  xs.foldlM (fun s x => s.Collect x.1 x.2) s

/-! ## The formatter -/

/-- Symbolic `float64` values: the three floating-point operations of
`Diff.String`.  Their numeric value is never inspected by the package; it is
handed to the external formatting functions. -/
inductive F64 where
  | seconds (d : Int)
  | ofUint64 (n : Nat)
  | div (a b : F64)
deriving DecidableEq, Repr

/-- The dynamic value of an `interface{}` argument. -/
inductive Value where
  | float64 (x : F64)
  | uint64 (n : Nat)
  | other (typeName : String)
deriving DecidableEq, Repr

/-- The formatting functions the package imports: `humanize.Bytes`, the
conversion `uint64(x)` of a `float64`, `fmt.Sprintf` with the verbs `%d`, `%.2f`
and `%v` (of a `[]time.Duration`), and `time.Duration.String`. -/
structure Fmt where
  humanizeBytes : Nat → String
  toUint64 : F64 → Nat
  sprintD : Nat → String
  sprintF2 : F64 → String
  durationString : Int → String
  sprintDurations : List Int → String

/-- The verb `%-35s` of `fmt`: `s` left-justified, padded with spaces to `w`
characters, never truncated. -/
def padRight (s : String) (w : Nat) : String :=
  s ++ String.mk (List.replicate (w - s.length) ' ')

/-- `writef`: appends `fmt.Sprintf("%-35s%s\n", field+":", value)` to the buffer. -/
def writef (w : String) (field value : String) : String :=
  w ++ padRight (field ++ ":") 35 ++ value ++ "\n"

/-- `sbytes`: the type switch; `panic("bad type")` is `.error "bad type"`. -/
def sbytes (R : Fmt) : Value → Except String String
  | .float64 n => .ok (R.humanizeBytes (R.toUint64 n))
  | .uint64 n => .ok (R.humanizeBytes n)
  | .other _ => .error "bad type"

/-- Go `a / b` on `time.Duration`: panics on a zero divisor, truncates toward
zero, wraps to 64 bits. -/
def divDuration (a b : Int) : Except String Int :=
  if b = 0 then .error "runtime error: integer divide by zero"
  else .ok (Int.bmod (Int.tdiv a b) 18446744073709551616)

/-- `Diff.String`. -/
def Diff.String (R : Fmt) (d : Diff) : Except String String := do
  let buf := ""
  let secs := F64.seconds d.Delta
  let buf := writef buf "Allocated" (← sbytes R (.uint64 d.TotalAlloc))
  let buf := writef buf "Alloc / sec" (← sbytes R (.float64 (.div (.ofUint64 d.TotalAlloc) secs)))
  let buf := writef buf "Alloc (still in use)" (← sbytes R (.uint64 d.Alloc))
  let buf := writef buf "Heap bytes from system" (← sbytes R (.uint64 d.HeapSys))
  let buf := writef buf "Heap alloc (still in use)" (← sbytes R (.uint64 d.HeapAlloc))
  let buf := writef buf "Heap alloc objects" (R.sprintD d.HeapObjects)
  let buf := writef buf "Heap alloc objects / sec"
    (R.sprintF2 (.div (.ofUint64 d.HeapObjects) secs))
  let buf := writef buf "Number of GCs" (R.sprintD d.NumGC)
  if d.NumGC > 0 then
    let buf := writef buf "Pause time" (R.durationString d.PauseTotal)
    if d.NumGC > 1 then
      let mean ← divDuration d.PauseTotal (d.NumGC : Int)
      let buf := writef buf "Mean pause time" (R.durationString mean)
      let buf := writef buf "Pause times (most recent first)" (R.sprintDurations d.pauses)
      return buf
    else return buf
  else return buf

/-! ## Vocabulary of the statements -/

/-- The value the loop stores at position `i`: the entry of the pause log at
index `(NumGC + 255 - i) % 256`, converted to a duration. -/
def pauseEntry (cur : MemStats) (i : Nat) : Int :=
  toInt64 (cur.PauseNs ⟨(cur.NumGC + 255 - i) % 256, Nat.mod_lt _ (by decide)⟩)

/-- The slice `ReadDiff` works on: a fresh one of length 256 when the caller's
`Pause` is nil, the caller's own otherwise. -/
def pauseBuffer (d : Diff) : Slice :=
  match d.Pause with
  | none => Slice.make 256
  | some p => p

/-- No imported formatting function produces a newline. -/
structure Fmt.NoNewline (R : Fmt) : Prop where
  humanizeBytes : ∀ n, '\n' ∉ (R.humanizeBytes n).toList
  sprintD : ∀ n, '\n' ∉ (R.sprintD n).toList
  sprintF2 : ∀ x, '\n' ∉ (R.sprintF2 x).toList
  durationString : ∀ d, '\n' ∉ (R.durationString d).toList
  sprintDurations : ∀ l, '\n' ∉ (R.sprintDurations l).toList

/-- The lines of a text: the maximal runs between newlines, a last run that
no newline ends counting only when it is not empty. -/
def splitLines : List Char → List (List Char)
  | [] => []
  | c :: cs =>
    if c = '\n' then [] :: splitLines cs
    else
      match splitLines cs with
      | [] => [[c]]
      | l :: ls => (c :: l) :: ls

/-- The text has a line that starts with the label and a colon. -/
def hasLine (text : String) (label : String) : Prop :=
  ∃ l ∈ splitLines text.toList, (label ++ ":").toList <+: l

/-- The label and value of each call of `writef` made by `Diff.String`, in order. -/
def reportFields (R : Fmt) (d : Diff) : List (String × String) :=
  [ ("Allocated", R.humanizeBytes d.TotalAlloc),
    ("Alloc / sec",
      R.humanizeBytes (R.toUint64 (.div (.ofUint64 d.TotalAlloc) (.seconds d.Delta)))),
    ("Alloc (still in use)", R.humanizeBytes d.Alloc),
    ("Heap bytes from system", R.humanizeBytes d.HeapSys),
    ("Heap alloc (still in use)", R.humanizeBytes d.HeapAlloc),
    ("Heap alloc objects", R.sprintD d.HeapObjects),
    ("Heap alloc objects / sec",
      R.sprintF2 (.div (.ofUint64 d.HeapObjects) (.seconds d.Delta))),
    ("Number of GCs", R.sprintD d.NumGC) ]
  ++ (if d.NumGC > 0 then [("Pause time", R.durationString d.PauseTotal)] else [])
  ++ (if d.NumGC > 1 then
        [ ("Mean pause time",
            R.durationString (Int.bmod (Int.tdiv d.PauseTotal d.NumGC) 18446744073709551616)),
          ("Pause times (most recent first)", R.sprintDurations d.pauses) ]
      else [])

/-- One line of the report without its newline: the label and a colon, spaces up
to column 35, the value. -/
def lineBody (f : String × String) : String :=
  f.1 ++ ":" ++ String.mk (List.replicate (35 - (f.1.length + 1)) ' ') ++ f.2

/-- The labels of the report for a GC count `n`, in order. -/
def reportLabels (n : Nat) : List String :=
  [ "Allocated", "Alloc / sec", "Alloc (still in use)", "Heap bytes from system",
    "Heap alloc (still in use)", "Heap alloc objects", "Heap alloc objects / sec",
    "Number of GCs" ]
  ++ (if n > 0 then ["Pause time"] else [])
  ++ (if n > 1 then ["Mean pause time", "Pause times (most recent first)"] else [])

/-- The first 35 characters of the line of a label. -/
def labelColumn (l : String) : List Char :=
  (l ++ ":").toList ++ List.replicate (35 - (l ++ ":").length) ' '

/-- The runtime's ring convention, as the statement about collections assumes
it: the pause log after `n` completed collections, when the pause `pauseOf k` of
the `k`-th collection (`k ≥ 1`) is written to `PauseNs[(k + 255) % 256]` and the
log starts out zeroed. -/
def ringAfter (pauseOf : Nat → Nat) : Nat → Fin 256 → Nat
  | 0 => fun _ => 0
  | n + 1 =>
    Function.update (ringAfter pauseOf n) ⟨(n + 1 + 255) % 256, Nat.mod_lt _ (by decide)⟩
      (pauseOf (n + 1))

/-- Two `Diff` values agree in every field; `Pause` is compared as a slice
value: nil or not, length and elements. -/
def Diff.agree (a b : Diff) : Prop :=
  a.Delta = b.Delta ∧ a.Alloc = b.Alloc ∧ a.TotalAlloc = b.TotalAlloc ∧
  a.Mallocs = b.Mallocs ∧ a.Frees = b.Frees ∧ a.HeapAlloc = b.HeapAlloc ∧
  a.HeapSys = b.HeapSys ∧ a.HeapObjects = b.HeapObjects ∧ a.PauseTotal = b.PauseTotal ∧
  a.Pause.isSome = b.Pause.isSome ∧ a.pauses = b.pauses ∧
  a.PausesMissing = b.PausesMissing ∧ a.NumGC = b.NumGC

/-- `ReadDiff` together with the final value of its receiver.  No statement
of `ReadDiff` assigns to a field of `s`, and `prev`, `cur` are copies. -/
def Stats.ReadDiffState (s : Stats) (diff : Diff) : Option (Stats × Diff × Bool) :=
  (s.ReadDiff diff).map (fun r => (s, r.1, r.2))

/-! ## A worked example

Thirteen collections have completed; the runtime has written the pause of the
`k`-th one (`k` milliseconds) to `PauseNs[(k + 255) % 256]`.  The previous
snapshot was taken after ten of them, five seconds earlier. -/

/-- A sample choice of formatting functions: plain decimal numerals with a unit. -/
def Fmt.sample : Fmt :=
  { humanizeBytes := fun n => Nat.repr n ++ " B"
    toUint64 := fun _ => 0
    sprintD := fun n => Nat.repr n
    sprintF2 := fun _ => "0.00"
    durationString := fun d => (if d < 0 then "-" else "") ++ Nat.repr d.natAbs ++ "ns"
    sprintDurations := fun l => "[" ++ Nat.repr l.length ++ " pauses]" }

/-- The older snapshot of the example. -/
def exPrev : MemStats :=
  { Alloc := 300000, TotalAlloc := 400, Mallocs := 40, Frees := 10, HeapAlloc := 250000,
    HeapSys := 1000000, HeapObjects := 30, PauseTotalNs := 55000000,
    PauseNs := fun j => if j.val < 10 then (j.val + 1) * 1000000 else 0, NumGC := 10 }

/-- The newer snapshot of the example. -/
def exCur : MemStats :=
  { Alloc := 600000, TotalAlloc := 1000, Mallocs := 100, Frees := 30, HeapAlloc := 500000,
    HeapSys := 1500000, HeapObjects := 70, PauseTotalNs := 91000000,
    PauseNs := fun j => if j.val < 13 then (j.val + 1) * 1000000 else 0, NumGC := 13 }

/-- The store of the example: slot 0 is the next to fill and holds the older
snapshot. -/
def exStore : Stats :=
  { ms := fun k => if k = 0 then exPrev else exCur
    t := fun k => if k = 0 then ⟨1000000000⟩ else ⟨6000000000⟩
    i := 0
    filled := true }

/-- The result of `ReadDiff` on the example store and a zero `Diff`. -/
def exDiff : Diff :=
  { Delta := 5000000000, Alloc := 600000, TotalAlloc := 600, Mallocs := 60, Frees := 20,
    HeapAlloc := 500000, HeapSys := 500000, HeapObjects := 70, PauseTotal := 36000000,
    Pause := some ⟨[13000000, 12000000, 11000000], List.replicate 253 0⟩,
    PausesMissing := false, NumGC := 3 }

/-- The example `Diff` with the flag set, as left by an earlier call. -/
def exDiffStale : Diff := { exDiff with PausesMissing := true }

/-- A filled store whose two samples carry the same time. -/
def exStoreSameTime : Stats := { exStore with t := fun _ => ⟨1000000000⟩ }

/-! ## Further examples -/

/-- The example `Diff` with a zero elapsed time. -/
def exDiffZeroDelta : Diff := { exDiff with Delta := 0 }

/-- The pauses of the worked example: collection `k` paused for `k` milliseconds. -/
def exPauseOf (k : Nat) : Nat := k * 1000000

/-- The two samples of the worked example, in the order they are collected. -/
def exSamples : List Sample := [(⟨1000000000⟩, exPrev), (⟨6000000000⟩, exCur)]

/-- A caller's `Diff` whose `Pause` is the empty, non-nil slice
`[]time.Duration{}` (length 0, capacity 0). -/
def exDiffEmptyPause : Diff := { Diff.zero with Pause := some ⟨[], []⟩ }

/-- A caller's `Diff` full of unrelated values, with a `Pause` of length 200
and capacity 300. -/
def exDiffJunk : Diff :=
  { Delta := -7, Alloc := 1, TotalAlloc := 2, Mallocs := 3, Frees := 4, HeapAlloc := 5,
    HeapSys := 6, HeapObjects := 7, PauseTotal := -8,
    Pause := some ⟨List.replicate 200 99, List.replicate 100 77⟩,
    PausesMissing := true, NumGC := 9999 }

/-- The example store with a cumulative pause total that grew by `2^63`
nanoseconds. -/
def exHugeStore : Stats :=
  { exStore with
    ms := fun k => if k = 0 then { exPrev with PauseTotalNs := 0 }
                   else { exCur with PauseTotalNs := 9223372036854775808 } }

/-- The result of `ReadDiff` on `exHugeStore` and a zero `Diff`. -/
def exHugeDiff : Diff := { exDiff with PauseTotal := -9223372036854775808 }

/-- The example store with the two times exchanged: the clock went back by
five seconds. -/
def exStoreBackwards : Stats :=
  { exStore with t := fun k => if k = 0 then ⟨6000000000⟩ else ⟨1000000000⟩ }

/-- The junk `Diff` after a call that returned `false` for a negative elapsed
time of five seconds. -/
def exDiffJunkBack : Diff := { exDiffJunk with Delta := -5000000000 }

/-- A `Diff` with 300 collections, of which `Pause` holds 256, and a pause
total of 3001 nanoseconds. -/
def exDiffBusy : Diff :=
  { exDiff with
    NumGC := 300, PausesMissing := true, PauseTotal := 3001,
    Pause := some ⟨List.replicate 256 10, []⟩ }

/-! # Theorems -/

/-! ## The pause-log loop -/

theorem pauseNsAt_loop_index (cur : MemStats) (i : Nat) (hi : i ≤ 255) :
    pauseNsAt cur (Int.tmod ((cur.NumGC : Int) - (i : Int) + 255) 256)
      = some (cur.PauseNs ⟨(cur.NumGC + 255 - i) % 256, Nat.mod_lt _ (by decide)⟩) := by
  have h0 : (0 : Int) ≤ (cur.NumGC : Int) - (i : Int) + 255 := by omega
  have hj : Int.tmod ((cur.NumGC : Int) - (i : Int) + 255) 256
      = (((cur.NumGC + 255 - i) % 256 : Nat) : Int) := by
    rw [Int.tmod_eq_emod h0 (by decide)]
    omega
  rw [hj]
  unfold pauseNsAt
  have hlt : ((cur.NumGC + 255 - i) % 256 : Nat) < 256 := Nat.mod_lt _ (by decide)
  rw [dif_pos (by constructor <;> omega)]
  congr 2

theorem pauseStep_eq (cur : MemStats) (p : List Int) (i : Nat) (hi : i ≤ 255)
    (hlen : i < p.length) : pauseStep cur p i = some (p.set i (pauseEntry cur i)) := by
  unfold pauseStep
  rw [pauseNsAt_loop_index cur i hi]
  simp [hlen, pauseEntry]

theorem foldlM_pauseStep (cur : MemStats) (p : List Int) (hp : p.length ≤ 256) :
    ∀ m, m ≤ p.length →
      (List.range m).foldlM (pauseStep cur) p
        = some ((List.range m).map (pauseEntry cur) ++ p.drop m) := by
  intro m
  induction m with
  | zero => intro _; simp
  | succ m ih =>
    intro hm
    have hm1 : m < p.length := hm
    rw [List.range_succ, List.foldlM_append, ih (Nat.le_of_lt hm1)]
    simp only [Option.bind_eq_bind, Option.some_bind, List.foldlM_cons, List.foldlM_nil]
    rw [pauseStep_eq cur _ m (by omega) (by simp; omega)]
    simp only [Option.some_bind, Option.pure_def, Option.some.injEq, List.map_append,
      List.map_cons, List.map_nil, List.append_assoc, List.singleton_append]
    have hlen : ((List.range m).map (pauseEntry cur)).length = m := by simp
    rw [List.set_append_right _ _ (by rw [hlen])]
    rw [hlen, Nat.sub_self]
    rw [List.drop_eq_getElem_cons hm1]
    rfl

/-- The loop of `ReadDiff` never panics on a slice of at most 256 elements and
overwrites every element with the corresponding `pauseEntry`. -/
theorem fillPause_eq (cur : MemStats) (p : List Int) (hp : p.length ≤ 256) :
    fillPause cur p = some ((List.range p.length).map (pauseEntry cur)) := by
  unfold fillPause
  rw [foldlM_pauseStep cur p hp p.length (Nat.le_refl _)]
  simp

/-! ## Outcomes of `ReadDiff` -/

theorem reslice_some {p q : Slice} {n : Nat} (h : p.reslice n = some q) :
    n ≤ p.cap ∧ q.elems.length = n ∧ q.elems = (p.elems ++ p.spare).take n ∧
      q.spare = (p.elems ++ p.spare).drop n := by
  unfold Slice.reslice at h
  split at h
  · rename_i hn
    simp only [Option.some.injEq] at h
    subst h
    refine ⟨hn, ?_, rfl, rfl⟩
    simp only [List.length_take, List.length_append]
    unfold Slice.cap at hn
    omega
  · simp at h

/-- What a call of `ReadDiff` that returns `true` has done. -/
theorem ReadDiff_true {s : Stats} {d d' : Diff} (h : s.ReadDiff d = some (d', true)) :
    s.filled = true ∧ ∃ k1 k2 p, slot s.i = some k1 ∧ slot (1 - s.i) = some k2 ∧
      0 ≤ (s.t k2).Sub (s.t k1) ∧
      (pauseBuffer d).reslice (min (sub32 (s.ms k2).NumGC (s.ms k1).NumGC) 256) = some p ∧
      d' = { Delta := (s.t k2).Sub (s.t k1)
             Alloc := (s.ms k2).Alloc
             TotalAlloc := sub64 (s.ms k2).TotalAlloc (s.ms k1).TotalAlloc
             Mallocs := sub64 (s.ms k2).Mallocs (s.ms k1).Mallocs
             Frees := sub64 (s.ms k2).Frees (s.ms k1).Frees
             HeapAlloc := (s.ms k2).HeapAlloc
             HeapSys := sub64 (s.ms k2).HeapSys (s.ms k1).HeapSys
             HeapObjects := (s.ms k2).HeapObjects
             PauseTotal := toInt64 (sub64 (s.ms k2).PauseTotalNs (s.ms k1).PauseTotalNs)
             Pause := some ⟨(List.range (min (sub32 (s.ms k2).NumGC (s.ms k1).NumGC) 256)).map
                              (pauseEntry (s.ms k2)), p.spare⟩
             PausesMissing := decide (sub32 (s.ms k2).NumGC (s.ms k1).NumGC > 256)
             NumGC := sub32 (s.ms k2).NumGC (s.ms k1).NumGC } := by
  unfold Stats.ReadDiff at h
  by_cases hf : s.filled = true
  swap
  · simp [hf] at h
  refine ⟨hf, ?_⟩
  simp only [hf, Bool.not_true, Bool.false_eq_true, if_false] at h
  split at h
  swap
  · simp at h
  rename_i k1 k2 h1 h2
  refine ⟨k1, k2, ?_⟩
  by_cases hneg : (s.t k2).Sub (s.t k1) < 0
  · simp [hneg] at h
  simp only [hneg, if_false] at h
  have hmin : (if sub32 (s.ms k2).NumGC (s.ms k1).NumGC > 256 then 256
      else sub32 (s.ms k2).NumGC (s.ms k1).NumGC)
      = min (sub32 (s.ms k2).NumGC (s.ms k1).NumGC) 256 := by
    split <;> omega
  rw [hmin] at h
  change (match (pauseBuffer d).reslice _ with | none => none | some p => _) = _ at h
  split at h
  · simp at h
  rename_i p hp
  obtain ⟨_, hlen, _, _⟩ := reslice_some hp
  have hle : p.elems.length ≤ 256 := by omega
  rw [fillPause_eq _ _ hle, hlen] at h
  refine ⟨p, h1, h2, by omega, hp, ?_⟩
  simp only [Option.some.injEq, Prod.mk.injEq, and_true] at h
  rw [← h]
  by_cases hg : sub32 (s.ms k2).NumGC (s.ms k1).NumGC > 256 <;> simp [hg]

theorem slot_some {k : Int} {f : Fin 2} (h : slot k = some f) : k = (f.val : Int) := by
  unfold slot at h
  split at h
  · simp only [Option.some.injEq] at h; subst h; simpa
  · split at h
    · simp only [Option.some.injEq] at h; subst h; simpa
    · simp at h

theorem slot_other {k : Int} {f g : Fin 2} (h : slot k = some f) (h' : slot (1 - k) = some g) :
    f ≠ g := by
  have h1 := slot_some h
  have h2 := slot_some h'
  intro hfg
  subst hfg
  omega

theorem Time.Sub_nonneg_iff (t u : Time) : 0 ≤ t.Sub u ↔ 0 ≤ t.ns - u.ns := by
  unfold Time.Sub maxDuration minDuration
  split
  · omega
  · split <;> omega

theorem Time.Sub_exact (t u : Time) (h1 : minDuration ≤ t.ns - u.ns)
    (h2 : t.ns - u.ns ≤ maxDuration) : t.Sub u = t.ns - u.ns := by
  unfold Time.Sub
  unfold maxDuration minDuration at *
  split
  · omega
  · split <;> omega

theorem ReadDiff_not_filled {s : Stats} (d : Diff) (h : s.filled = false) :
    s.ReadDiff d = some (d, false) := by
  unfold Stats.ReadDiff
  simp [h]

theorem ReadDiff_negative {s : Stats} (d : Diff) {k1 k2 : Fin 2} (hf : s.filled = true)
    (h1 : slot s.i = some k1) (h2 : slot (1 - s.i) = some k2)
    (hneg : (s.t k2).Sub (s.t k1) < 0) :
    s.ReadDiff d = some ({ d with Delta := (s.t k2).Sub (s.t k1) }, false) := by
  unfold Stats.ReadDiff
  simp [hf, h1, h2, hneg]

/-- A call of `ReadDiff` on a filled store with a non-negative elapsed time and
room for the pauses in the slice returns `true`. -/
theorem ReadDiff_succeeds {s : Stats} (d : Diff) {k1 k2 : Fin 2} (hf : s.filled = true)
    (h1 : slot s.i = some k1) (h2 : slot (1 - s.i) = some k2)
    (hpos : 0 ≤ (s.t k2).Sub (s.t k1))
    (hcap : min (sub32 (s.ms k2).NumGC (s.ms k1).NumGC) 256 ≤ (pauseBuffer d).cap) :
    ∃ d', s.ReadDiff d = some (d', true) := by
  unfold Stats.ReadDiff
  have hneg : ¬ (s.t k2).Sub (s.t k1) < 0 := by omega
  have hmin : (if sub32 (s.ms k2).NumGC (s.ms k1).NumGC > 256 then 256
      else sub32 (s.ms k2).NumGC (s.ms k1).NumGC)
      = min (sub32 (s.ms k2).NumGC (s.ms k1).NumGC) 256 := by
    split <;> omega
  simp only [hf, Bool.not_true, Bool.false_eq_true, if_false, h1, h2, hneg]
  rw [hmin]
  change ∃ d', (match (pauseBuffer d).reslice _ with | none => none | some p => _)
    = some (d', true)
  have hr : (pauseBuffer d).reslice (min (sub32 (s.ms k2).NumGC (s.ms k1).NumGC) 256)
      = some ⟨((pauseBuffer d).elems ++ (pauseBuffer d).spare).take
                (min (sub32 (s.ms k2).NumGC (s.ms k1).NumGC) 256),
              ((pauseBuffer d).elems ++ (pauseBuffer d).spare).drop
                (min (sub32 (s.ms k2).NumGC (s.ms k1).NumGC) 256)⟩ := by
    unfold Slice.reslice
    rw [if_pos hcap]
  rw [hr]
  simp only
  rw [fillPause_eq _ _ (by simp only [List.length_take]; omega)]
  exact ⟨_, rfl⟩

/-- What a call of `ReadDiff` that returns `false` has done. -/
theorem ReadDiff_false {s : Stats} {d d' : Diff} (h : s.ReadDiff d = some (d', false)) :
    (s.filled = false ∧ d' = d) ∨
    (s.filled = true ∧ ∃ k1 k2, slot s.i = some k1 ∧ slot (1 - s.i) = some k2 ∧
      (s.t k2).Sub (s.t k1) < 0 ∧ d' = { d with Delta := (s.t k2).Sub (s.t k1) }) := by
  by_cases hf : s.filled = true
  swap
  · left
    have hf' : s.filled = false := by simpa using hf
    rw [ReadDiff_not_filled d hf'] at h
    simp only [Option.some.injEq, Prod.mk.injEq, and_true] at h
    exact ⟨hf', h.symm⟩
  right
  refine ⟨hf, ?_⟩
  unfold Stats.ReadDiff at h
  simp only [hf, Bool.not_true, Bool.false_eq_true, if_false] at h
  split at h
  swap
  · simp at h
  rename_i k1 k2 h1 h2
  refine ⟨k1, k2, h1, h2, ?_⟩
  by_cases hneg : (s.t k2).Sub (s.t k1) < 0
  · simp only [hneg, if_true, Option.some.injEq, Prod.mk.injEq, and_true] at h
    exact ⟨hneg, h.symm⟩
  · exfalso
    simp only [hneg, if_false] at h
    split at h
    · simp at h
    · split at h <;> simp at h

theorem Slice.make_cap (n : Nat) : (Slice.make n).cap = n := by
  simp [Slice.make, Slice.cap]

theorem pauseBuffer_cap (d : Diff)
    (hd : d.Pause = none ∨ ∃ p, d.Pause = some p ∧ 256 ≤ p.cap) :
    256 ≤ (pauseBuffer d).cap := by
  unfold pauseBuffer
  rcases hd with h | ⟨p, h, hp⟩
  · rw [h]
    simp only
    rw [Slice.make_cap]
  · rw [h]
    exact hp

/-! ## Sequences of `Collect` -/

theorem collectAll_snoc (s : Stats) (xs : List Sample) (x : Sample) :
    collectAll s (xs ++ [x]) = (collectAll s xs).bind (fun s' => s'.Collect x.1 x.2) := by
  unfold collectAll
  rw [List.foldlM_append]
  cases h : List.foldlM (fun s x => s.Collect x.1 x.2) s xs <;> simp

/-- One `Collect` on a store whose index is in range. -/
theorem Collect_step (s : Stats) (now : Time) (m : MemStats) {k : Fin 2}
    (hk : slot s.i = some k) :
    s.Collect now m = some { ms := Function.update s.ms k m
                             t := Function.update s.t k now
                             i := 1 - s.i
                             filled := if 1 - s.i = 0 then true else s.filled } := by
  unfold Stats.Collect
  rw [hk]

theorem slot_of_mod (n : Nat) : ∃ k, slot ((n % 2 : Nat) : Int) = some k := by
  unfold slot
  rcases Nat.mod_two_eq_zero_or_one n with h | h <;> rw [h] <;> simp

/-- The state of the store after any number of calls of `Collect` on the zero
value: the index, the flag, and what the two slots hold. -/
theorem collectAll_zero_inv (xs : List Sample) :
    ∃ s, collectAll Stats.zero xs = some s ∧ s.i = ((xs.length % 2 : Nat) : Int) ∧
      s.filled = decide (2 ≤ xs.length) ∧
      (∀ pre b, xs = pre ++ [b] → ∀ k, slot (1 - s.i) = some k → s.ms k = b.2 ∧ s.t k = b.1) ∧
      (∀ pre a b, xs = pre ++ [a, b] → ∀ k, slot s.i = some k → s.ms k = a.2 ∧ s.t k = a.1) := by
  induction xs using List.reverseRecOn with
  | nil =>
    refine ⟨Stats.zero, rfl, rfl, rfl, ?_, ?_⟩
    · intro pre b h; simp at h
    · intro pre a b h; simp at h
  | append_singleton xs x ih =>
    obtain ⟨s, hs, hi, hf, hlast, _⟩ := ih
    obtain ⟨k, hk⟩ := slot_of_mod xs.length
    rw [← hi] at hk
    refine ⟨{ ms := Function.update s.ms k x.2
              t := Function.update s.t k x.1
              i := 1 - s.i
              filled := if 1 - s.i = 0 then true else s.filled }, ?_, ?_, ?_, ?_, ?_⟩
    · rw [collectAll_snoc, hs]
      exact Collect_step s x.1 x.2 hk
    · simp only [List.length_append, List.length_singleton]
      omega
    · simp only [List.length_append, List.length_singleton, hf]
      by_cases h0 : 1 - s.i = 0
      · simp only [h0, if_true]
        symm
        rw [decide_eq_true_iff]
        omega
      · simp only [h0, if_false]
        congr 1
        apply propext
        omega
    · intro pre b hb k' hk'
      obtain ⟨_, hx⟩ := List.append_inj' hb rfl
      simp only [List.cons.injEq, and_true] at hx
      subst hx
      have h11 : (1 : Int) - (1 - s.i) = s.i := by omega
      simp only [h11] at hk'
      rw [hk] at hk'
      simp only [Option.some.injEq] at hk'
      subst hk'
      simp
    · intro pre a b hab k' hk'
      have hab' : xs ++ [x] = (pre ++ [a]) ++ [b] := by simpa using hab
      obtain ⟨hxs, hx⟩ := List.append_inj' hab' rfl
      simp only at hk'
      have hne : k ≠ k' := slot_other hk hk'
      obtain ⟨h1, h2⟩ := hlast pre a hxs k' hk'
      simp only [Function.update_noteq (Ne.symm hne)]
      exact ⟨h1, h2⟩

/-! ## Lines of a text -/

theorem splitLines_line (b rest : List Char) (hb : '\n' ∉ b) :
    splitLines (b ++ '\n' :: rest) = b :: splitLines rest := by
  induction b with
  | nil => simp [splitLines]
  | cons c b ih =>
    have hc : c ≠ '\n' := fun h => hb (by simp [h])
    have hb' : '\n' ∉ b := fun h => hb (by simp [h])
    rw [List.cons_append, splitLines, if_neg hc, ih hb']

theorem splitLines_flatten (bs : List (List Char)) (hbs : ∀ b ∈ bs, '\n' ∉ b) :
    splitLines (bs.map (fun b => b ++ ['\n'])).flatten = bs := by
  induction bs with
  | nil => simp [splitLines]
  | cons b bs ih =>
    simp only [List.map_cons, List.flatten_cons, List.append_assoc, List.singleton_append]
    rw [splitLines_line b _ (hbs b (by simp)), ih (fun b' hb' => hbs b' (by simp [hb']))]

/-! ## Normal form of the report -/

theorem writef_eq (w field value : String) :
    writef w field value = w ++ (lineBody (field, value) ++ "\n") := by
  unfold writef lineBody padRight
  have h1 : ":".length = 1 := rfl
  simp [String.append_assoc, String.length_append, h1]

/-- The report is the concatenation of its lines. -/
theorem String_eq_join (R : Fmt) (d : Diff) :
    d.String R = .ok (String.join ((reportFields R d).map (fun f => lineBody f ++ "\n"))) := by
  unfold Diff.String reportFields
  by_cases h0 : d.NumGC > 0
  · by_cases h1 : d.NumGC > 1
    · have hne : ¬ ((d.NumGC : Int) = 0) := by omega
      simp [h0, h1, sbytes, divDuration, hne, writef_eq, String.join, String.append_assoc,
        bind, Except.bind, pure, Except.pure]
    · simp [h0, h1, sbytes, writef_eq, String.join, String.append_assoc,
        bind, Except.bind, pure, Except.pure]
  · simp [h0, show ¬ d.NumGC > 1 by omega, sbytes, writef_eq, String.join,
      String.append_assoc, bind, Except.bind, pure, Except.pure]

theorem reportFields_labels (R : Fmt) (d : Diff) :
    (reportFields R d).map Prod.fst = reportLabels d.NumGC := by
  unfold reportFields reportLabels
  by_cases h0 : d.NumGC > 0 <;> by_cases h1 : d.NumGC > 1 <;> simp [h0, h1]

theorem reportLabels_length (n : Nat) :
    (reportLabels n).length = if n = 0 then 8 else if n = 1 then 9 else 11 := by
  unfold reportLabels
  rcases Nat.lt_or_ge n 1 with h | h
  · have : n = 0 := by omega
    subst this
    rfl
  · rcases Nat.lt_or_ge n 2 with h' | h'
    · have : n = 1 := by omega
      subst this
      rfl
    · simp [show n > 0 by omega, show n > 1 by omega, show n ≠ 0 by omega,
        show n ≠ 1 by omega]

theorem reportLabels_subset (n : Nat) : ∀ l ∈ reportLabels n, l ∈ reportLabels 2 := by
  intro l hl
  unfold reportLabels at hl
  have h2 : reportLabels 2 = [ "Allocated", "Alloc / sec", "Alloc (still in use)",
      "Heap bytes from system", "Heap alloc (still in use)", "Heap alloc objects",
      "Heap alloc objects / sec", "Number of GCs", "Pause time", "Mean pause time",
      "Pause times (most recent first)" ] := rfl
  rw [h2]
  by_cases h0 : n > 0 <;> by_cases h1 : n > 1 <;> simp [h0, h1] at hl <;>
    simp only [List.mem_cons] <;> tauto

/-- Every label with its colon is shorter than the column width and has no
newline. -/
theorem reportLabels_short : ∀ l ∈ reportLabels 2,
    (l ++ ":").length < 35 ∧ '\n' ∉ (l ++ ":").toList := by
  decide

theorem reportFields_value_noNewline {R : Fmt} (hR : R.NoNewline) (d : Diff) :
    ∀ f ∈ reportFields R d, '\n' ∉ f.2.toList := by
  intro f hf
  unfold reportFields at hf
  simp only [List.mem_append, List.mem_cons, List.mem_singleton, List.not_mem_nil,
    or_false] at hf
  rcases hf with (((h | h | h | h | h | h | h | h) | h) | h)
  · subst h; exact hR.humanizeBytes _
  · subst h; exact hR.humanizeBytes _
  · subst h; exact hR.humanizeBytes _
  · subst h; exact hR.humanizeBytes _
  · subst h; exact hR.humanizeBytes _
  · subst h; exact hR.sprintD _
  · subst h; exact hR.sprintF2 _
  · subst h; exact hR.sprintD _
  · split at h
    · simp only [List.mem_singleton] at h; subst h; exact hR.durationString _
    · simp at h
  · split at h
    · simp only [List.mem_cons, List.mem_singleton, List.not_mem_nil, or_false] at h
      rcases h with h | h
      · subst h; exact hR.durationString _
      · subst h; exact hR.sprintDurations _
    · simp at h

theorem lineBody_toList (f : String × String) :
    (lineBody f).toList
      = (f.1 ++ ":").toList ++ List.replicate (35 - (f.1 ++ ":").length) ' ' ++ f.2.toList := by
  unfold lineBody
  have h1 : ":".length = 1 := rfl
  simp [String.toList, String.length_append, h1]

theorem reportFields_label_mem (R : Fmt) (d : Diff) :
    ∀ f ∈ reportFields R d, f.1 ∈ reportLabels 2 := by
  intro f hf
  apply reportLabels_subset d.NumGC
  rw [← reportFields_labels R d]
  exact List.mem_map_of_mem _ hf

theorem lineBody_noNewline {R : Fmt} (hR : R.NoNewline) (d : Diff) :
    ∀ f ∈ reportFields R d, '\n' ∉ (lineBody f).toList := by
  intro f hf
  have hl := (reportLabels_short f.1 (reportFields_label_mem R d f hf)).2
  have hv := reportFields_value_noNewline hR d f hf
  rw [lineBody_toList]
  simp only [List.mem_append, not_or]
  refine ⟨⟨hl, ?_⟩, hv⟩
  intro h
  have := List.eq_of_mem_replicate h
  exact absurd this (by decide)

/-- The lines of the report are the line bodies of its fields. -/
theorem splitLines_report {R : Fmt} (hR : R.NoNewline) (d : Diff) :
    splitLines (String.join ((reportFields R d).map (fun f => lineBody f ++ "\n"))).toList
      = (reportFields R d).map (fun f => (lineBody f).toList) := by
  have h := splitLines_flatten ((reportFields R d).map (fun f => (lineBody f).toList))
    (by
      intro b hb
      obtain ⟨f, hf, rfl⟩ := List.mem_map.1 hb
      exact lineBody_noNewline hR d f hf)
  rw [← h]
  congr 1
  simp only [String.toList, String.data_join, List.map_map]
  congr 1

theorem isPrefix_append_iff_of_length_le {p q v : List Char} (h : p.length ≤ q.length) :
    p <+: q ++ v ↔ p <+: q :=
  ⟨fun hp => List.prefix_of_prefix_length_le hp (List.prefix_append q v) h,
   fun hp => hp.trans (List.prefix_append q v)⟩

theorem labelColumn_length (l : String) (h : (l ++ ":").length < 35) :
    (labelColumn l).length = 35 := by
  unfold labelColumn
  simp only [List.length_append, List.length_replicate]
  have : (l ++ ":").toList.length = (l ++ ":").length := rfl
  omega

/-- Under newline-free formatting functions, the report has a line starting
with `L:` exactly when one of its labels does in its first 35 characters. -/
theorem hasLine_report_iff {R : Fmt} (hR : R.NoNewline) (d : Diff) (L : String)
    (hL : (L ++ ":").length ≤ 35) :
    hasLine (String.join ((reportFields R d).map (fun f => lineBody f ++ "\n"))) L
      ↔ ∃ l ∈ reportLabels d.NumGC, (L ++ ":").toList <+: labelColumn l := by
  unfold hasLine
  rw [splitLines_report hR, ← reportFields_labels R d]
  simp only [List.mem_map, exists_exists_and_eq_and]
  have key : ∀ f ∈ reportFields R d,
      ((L ++ ":").toList <+: (lineBody f).toList ↔ (L ++ ":").toList <+: labelColumn f.1) := by
    intro f hf
    have hs := (reportLabels_short f.1 (reportFields_label_mem R d f hf)).1
    rw [lineBody_toList]
    apply isPrefix_append_iff_of_length_le
    have := labelColumn_length f.1 hs
    unfold labelColumn at this
    rw [this]
    exact hL
  constructor
  · rintro ⟨f, hf, hp⟩
    exact ⟨f, hf, (key f hf).1 hp⟩
  · rintro ⟨f, hf, hp⟩
    exact ⟨f, hf, (key f hf).2 hp⟩

theorem reportLabels_of_two_le (n : Nat) (h : 2 ≤ n) : reportLabels n = reportLabels 2 := by
  unfold reportLabels
  simp [show n > 0 by omega, show n > 1 by omega]

/-! ## The sample formatting functions produce no newline -/

theorem digitChar_ne_newline (m : Nat) (h : m < 10) : Nat.digitChar m ≠ '\n' := by
  interval_cases m <;> decide

theorem toDigitsCore_noNewline : ∀ (fuel n : Nat) (ds : List Char), '\n' ∉ ds →
    '\n' ∉ Nat.toDigitsCore 10 fuel n ds := by
  intro fuel
  induction fuel with
  | zero => intro n ds h; simpa [Nat.toDigitsCore] using h
  | succ fuel ih =>
    intro n ds h
    have hd : '\n' ∉ Nat.digitChar (n % 10) :: ds := by
      simp only [List.mem_cons, not_or]
      exact ⟨fun e => digitChar_ne_newline (n % 10) (Nat.mod_lt _ (by decide)) e.symm, h⟩
    unfold Nat.toDigitsCore
    simp only
    split
    · exact hd
    · exact ih _ _ hd

theorem repr_noNewline (n : Nat) : '\n' ∉ (Nat.repr n).toList := by
  unfold Nat.repr Nat.toDigits
  exact toDigitsCore_noNewline _ _ _ (by simp)

theorem Fmt.sample_noNewline : Fmt.sample.NoNewline := by
  constructor
  · intro n
    simp only [Fmt.sample, String.toList, String.data_append, List.mem_append, not_or]
    exact ⟨repr_noNewline n, by decide⟩
  · intro n
    exact repr_noNewline n
  · intro x
    simp only [Fmt.sample]
    decide
  · intro d
    simp only [Fmt.sample, String.toList, String.data_append, List.mem_append, not_or]
    refine ⟨⟨?_, repr_noNewline _⟩, by decide⟩
    split <;> decide
  · intro l
    simp only [Fmt.sample, String.toList, String.data_append, List.mem_append, not_or]
    exact ⟨⟨by decide, repr_noNewline _⟩, by decide⟩

/-! ## Evaluation of the worked example -/

set_option maxRecDepth 100000

theorem exStore_ReadDiff : exStore.ReadDiff Diff.zero = some (exDiff, true) := by
  decide

theorem exStore_slots : slot exStore.i = some 0 ∧ slot (1 - exStore.i) = some 1 := by
  decide

theorem exStore_ReadDiff_stale : exStore.ReadDiff exDiffStale = some (exDiff, true) := by
  decide

theorem exStoreSameTime_ReadDiff :
    exStoreSameTime.ReadDiff Diff.zero = some ({ exDiff with Delta := 0 }, true) := by
  decide

theorem exStore_inRange : (exStore.ms 0).InRange ∧ (exStore.ms 1).InRange := by
  constructor
  · refine ⟨by decide, by decide, by decide, by decide, by decide, by decide, by decide,
      by decide, ?_, by decide⟩
    intro j
    show (if j.val < 10 then (j.val + 1) * 1000000 else 0) < two64
    unfold two64
    split <;> omega
  · refine ⟨by decide, by decide, by decide, by decide, by decide, by decide, by decide,
      by decide, ?_, by decide⟩
    intro j
    show (if j.val < 13 then (j.val + 1) * 1000000 else 0) < two64
    unfold two64
    split <;> omega

/-! ## The claims about `ReadDiff` -/

/-- C1, as stated, fails: on the example store `ReadDiff` succeeds with a
first pause of 13 ms, while the pause-log entry at circular index
`(current.NumGC - 0) mod 256 = 13` is 0 (that slot has not been written yet). -/
theorem ReadDiff_pause_spec_index_fails :
    exStore.ReadDiff Diff.zero = some (exDiff, true) ∧ slot (1 - exStore.i) = some 1 ∧
    0 < exDiff.pauses.length ∧
    ¬ ∃ j : Fin 256, (j.val : Int) = (((exStore.ms 1).NumGC : Int) - ((0 : Nat) : Int)) % 256 ∧
        exDiff.pauses[0]? = some (toInt64 ((exStore.ms 1).PauseNs j)) := by
  refine ⟨exStore_ReadDiff, by decide, by decide, ?_⟩
  rintro ⟨j, hj, h⟩
  have h13 : j = ⟨13, by decide⟩ := by
    apply Fin.ext
    have : (exStore.ms 1).NumGC = 13 := rfl
    rw [this] at hj
    simp only
    omega
  subst h13
  revert h
  decide

/-- C1, amended: after a successful `ReadDiff`, for every `i < len(diff.Pause)`,
`diff.Pause[i]` is the entry of the current snapshot's pause log at circular
index `(current.NumGC - i + 255) mod 256` (one slot before the index
`(current.NumGC - i) mod 256`), converted to a `time.Duration`. -/
theorem ReadDiff_pause_index (s : Stats) (d d' : Diff) (k2 : Fin 2) (i : Nat)
    (h : s.ReadDiff d = some (d', true)) (hc : slot (1 - s.i) = some k2)
    (hi : i < d'.pauses.length) :
    ∃ j : Fin 256, (j.val : Int) = (((s.ms k2).NumGC : Int) - (i : Int) + 255) % 256 ∧
      d'.pauses[i]? = some (toInt64 ((s.ms k2).PauseNs j)) := by
  obtain ⟨_, k1, k2', p, _, h2, _, _, hd⟩ := ReadDiff_true h
  rw [hc] at h2
  simp only [Option.some.injEq] at h2
  subst h2
  subst hd
  simp only [Diff.pauses, List.length_map, List.length_range] at hi
  have hi' : i ≤ 255 := by omega
  refine ⟨⟨((s.ms k2).NumGC + 255 - i) % 256, Nat.mod_lt _ (by decide)⟩, ?_, ?_⟩
  · simp only
    omega
  · simp only [Diff.pauses]
    rw [List.getElem?_map, List.getElem?_range (by omega)]
    rfl

/-- Witness for `ReadDiff_pause_index`: the example store, position 1. -/
theorem ReadDiff_pause_index_witness :
    exStore.ReadDiff Diff.zero = some (exDiff, true) ∧ slot (1 - exStore.i) = some 1 ∧
    1 < exDiff.pauses.length ∧
    ∃ j : Fin 256, (j.val : Int) = (((exStore.ms 1).NumGC : Int) - ((1 : Nat) : Int) + 255) % 256 ∧
      exDiff.pauses[1]? = some (toInt64 ((exStore.ms 1).PauseNs j)) :=
  ⟨exStore_ReadDiff, exStore_slots.2, by decide,
   ReadDiff_pause_index exStore Diff.zero exDiff 1 1 exStore_ReadDiff exStore_slots.2
     (by decide)⟩

/-- C2: every successful `ReadDiff` leaves `diff.NumGC` equal to the `uint32`
difference `current.NumGC - previous.NumGC` and `len(diff.Pause)` equal to
`min(diff.NumGC, 256)`: `Pause` is empty when the difference is 0 and has
length 256 when it exceeds 256.  On a filled store with a non-negative elapsed
time, a call with a `Diff` whose `Pause` is nil or has capacity at least 256
is successful. -/
theorem ReadDiff_pause_length (s : Stats) (d : Diff) (k1 k2 : Fin 2)
    (hp : slot s.i = some k1) (hc : slot (1 - s.i) = some k2) :
    (∀ d', s.ReadDiff d = some (d', true) →
      d'.NumGC = sub32 (s.ms k2).NumGC (s.ms k1).NumGC ∧
      d'.pauses.length = min d'.NumGC 256 ∧
      (d'.NumGC = 0 → d'.pauses = []) ∧
      (256 < d'.NumGC → d'.pauses.length = 256)) ∧
    (s.filled = true → 0 ≤ (s.t k2).Sub (s.t k1) →
      (d.Pause = none ∨ ∃ p, d.Pause = some p ∧ 256 ≤ p.cap) →
      ∃ d', s.ReadDiff d = some (d', true)) := by
  constructor
  · intro d' h
    obtain ⟨_, k1', k2', p, h1, h2, _, _, hd⟩ := ReadDiff_true h
    rw [hp] at h1
    rw [hc] at h2
    simp only [Option.some.injEq] at h1 h2
    subst h1 h2 hd
    simp only [Diff.pauses, List.length_map, List.length_range, true_and]
    constructor
    · intro h0
      simp [h0]
    · intro h256
      omega
  · intro hf hpos hcap
    exact ReadDiff_succeeds d hf hp hc hpos
      (le_trans (Nat.min_le_right _ _) (pauseBuffer_cap d hcap))

/-- Witness for `ReadDiff_pause_length`: the example store and a zero `Diff`. -/
theorem ReadDiff_pause_length_witness :
    slot exStore.i = some 0 ∧ slot (1 - exStore.i) = some 1 ∧
    exStore.ReadDiff Diff.zero = some (exDiff, true) ∧
    exDiff.NumGC = sub32 (exStore.ms 1).NumGC (exStore.ms 0).NumGC ∧
    exDiff.pauses.length = min exDiff.NumGC 256 ∧
    (exDiff.NumGC = 0 → exDiff.pauses = []) ∧
    (256 < exDiff.NumGC → exDiff.pauses.length = 256) :=
  ⟨exStore_slots.1, exStore_slots.2, exStore_ReadDiff,
   (ReadDiff_pause_length exStore Diff.zero 0 1 exStore_slots.1 exStore_slots.2).1 exDiff
     exStore_ReadDiff⟩

/-- C3: after a successful `ReadDiff`, `diff.PausesMissing` is true if and only
if the `uint32` difference `current.NumGC - previous.NumGC` exceeds 256; so it
is false whenever the difference is at most 256, whatever the flag was in the
caller's `Diff`. -/
theorem ReadDiff_pausesMissing_iff (s : Stats) (d d' : Diff) (k1 k2 : Fin 2)
    (h : s.ReadDiff d = some (d', true)) (hp : slot s.i = some k1)
    (hc : slot (1 - s.i) = some k2) :
    (d'.PausesMissing = true ↔ 256 < sub32 (s.ms k2).NumGC (s.ms k1).NumGC) ∧
    (sub32 (s.ms k2).NumGC (s.ms k1).NumGC ≤ 256 → d'.PausesMissing = false) := by
  obtain ⟨_, k1', k2', p, h1, h2, _, _, hd⟩ := ReadDiff_true h
  rw [hp] at h1
  rw [hc] at h2
  simp only [Option.some.injEq] at h1 h2
  subst h1 h2 hd
  simp only [gt_iff_lt, decide_eq_true_eq, decide_eq_false_iff_not, not_lt, true_and]
  exact fun h => h

/-- Witness for `ReadDiff_pausesMissing_iff`: the example store, called with a
`Diff` whose flag is set. -/
theorem ReadDiff_pausesMissing_iff_witness :
    exDiffStale.PausesMissing = true ∧
    exStore.ReadDiff exDiffStale = some (exDiff, true) ∧
    (exDiff.PausesMissing = true ↔ 256 < sub32 (exStore.ms 1).NumGC (exStore.ms 0).NumGC) ∧
    (sub32 (exStore.ms 1).NumGC (exStore.ms 0).NumGC ≤ 256 → exDiff.PausesMissing = false) :=
  ⟨rfl, exStore_ReadDiff_stale,
   ReadDiff_pausesMissing_iff exStore exDiffStale exDiff 0 1 exStore_ReadDiff_stale
     exStore_slots.1 exStore_slots.2⟩

/-- C4: whenever `ReadDiff` returns (does not panic), the result is `true` if
and only if the store is filled and the elapsed time `t[current].Sub(t[previous])`
is `≥ 0`, and `false` if and only if the store is not filled or the elapsed time
is negative; in particular an elapsed time of exactly 0 gives `true`. -/
theorem ReadDiff_ok_iff (s : Stats) (d d' : Diff) (ok : Bool)
    (h : s.ReadDiff d = some (d', ok)) :
    (ok = true ↔ s.filled = true ∧ ∃ k1 k2, slot s.i = some k1 ∧ slot (1 - s.i) = some k2 ∧
        0 ≤ (s.t k2).Sub (s.t k1)) ∧
    (ok = false ↔ s.filled = false ∨ ∃ k1 k2, slot s.i = some k1 ∧ slot (1 - s.i) = some k2 ∧
        (s.t k2).Sub (s.t k1) < 0) ∧
    (s.filled = true → (∃ k1 k2, slot s.i = some k1 ∧ slot (1 - s.i) = some k2 ∧
        (s.t k2).Sub (s.t k1) = 0) → ok = true) := by
  cases ok with
  | true =>
    obtain ⟨hf, k1, k2, p, h1, h2, hpos, _, _⟩ := ReadDiff_true h
    refine ⟨⟨fun _ => ⟨hf, k1, k2, h1, h2, hpos⟩, fun _ => rfl⟩, ⟨fun e => by simp at e, ?_⟩,
      fun _ _ => rfl⟩
    rintro (hnf | ⟨j1, j2, g1, g2, hneg⟩)
    · rw [hf] at hnf
      simp at hnf
    · rw [h1] at g1
      rw [h2] at g2
      simp only [Option.some.injEq] at g1 g2
      subst g1 g2
      omega
  | false =>
    have hcases := ReadDiff_false h
    refine ⟨⟨fun e => by simp at e, ?_⟩, ⟨fun _ => ?_, fun _ => rfl⟩, ?_⟩
    · rintro ⟨hf, j1, j2, g1, g2, hpos⟩
      rcases hcases with ⟨hnf, _⟩ | ⟨_, k1, k2, h1, h2, hneg, _⟩
      · rw [hf] at hnf
        simp at hnf
      · rw [h1] at g1
        rw [h2] at g2
        simp only [Option.some.injEq] at g1 g2
        subst g1 g2
        omega
    · rcases hcases with ⟨hnf, _⟩ | ⟨_, k1, k2, h1, h2, hneg, _⟩
      · exact Or.inl hnf
      · exact Or.inr ⟨k1, k2, h1, h2, hneg⟩
    · rintro hf ⟨j1, j2, g1, g2, hz⟩
      rcases hcases with ⟨hnf, _⟩ | ⟨_, k1, k2, h1, h2, hneg, _⟩
      · rw [hf] at hnf
        simp at hnf
      · rw [h1] at g1
        rw [h2] at g2
        simp only [Option.some.injEq] at g1 g2
        subst g1 g2
        omega

/-- Witness for `ReadDiff_ok_iff`: a filled store with elapsed time 0. -/
theorem ReadDiff_ok_iff_witness :
    exStoreSameTime.ReadDiff Diff.zero = some ({ exDiff with Delta := 0 }, true) ∧
    (exStoreSameTime.t 1).Sub (exStoreSameTime.t 0) = 0 ∧
    (true = true ↔ exStoreSameTime.filled = true ∧
      ∃ k1 k2, slot exStoreSameTime.i = some k1 ∧ slot (1 - exStoreSameTime.i) = some k2 ∧
        0 ≤ (exStoreSameTime.t k2).Sub (exStoreSameTime.t k1)) :=
  ⟨exStoreSameTime_ReadDiff, by decide,
   (ReadDiff_ok_iff exStoreSameTime Diff.zero { exDiff with Delta := 0 } true
      exStoreSameTime_ReadDiff).1⟩

/-- C7: after a successful `ReadDiff` on snapshots whose fields are in the
range of their Go types and whose cumulative counters have not decreased, the
fields `TotalAlloc`, `Mallocs`, `Frees`, `HeapSys` and `NumGC` of the diff are
the exact differences `current.X - previous.X`. -/
theorem ReadDiff_counter_deltas (s : Stats) (d d' : Diff) (k1 k2 : Fin 2)
    (h : s.ReadDiff d = some (d', true)) (hp : slot s.i = some k1)
    (hc : slot (1 - s.i) = some k2)
    (hprev : (s.ms k1).InRange) (hcur : (s.ms k2).InRange)
    (hmono : (s.ms k1).TotalAlloc ≤ (s.ms k2).TotalAlloc ∧
      (s.ms k1).Mallocs ≤ (s.ms k2).Mallocs ∧ (s.ms k1).Frees ≤ (s.ms k2).Frees ∧
      (s.ms k1).HeapSys ≤ (s.ms k2).HeapSys ∧ (s.ms k1).NumGC ≤ (s.ms k2).NumGC) :
    (d'.TotalAlloc : Int) = ((s.ms k2).TotalAlloc : Int) - ((s.ms k1).TotalAlloc : Int) ∧
    (d'.Mallocs : Int) = ((s.ms k2).Mallocs : Int) - ((s.ms k1).Mallocs : Int) ∧
    (d'.Frees : Int) = ((s.ms k2).Frees : Int) - ((s.ms k1).Frees : Int) ∧
    (d'.HeapSys : Int) = ((s.ms k2).HeapSys : Int) - ((s.ms k1).HeapSys : Int) ∧
    (d'.NumGC : Int) = ((s.ms k2).NumGC : Int) - ((s.ms k1).NumGC : Int) := by
  obtain ⟨_, k1', k2', p, h1, h2, _, _, hd⟩ := ReadDiff_true h
  rw [hp] at h1
  rw [hc] at h2
  simp only [Option.some.injEq] at h1 h2
  subst h1 h2 hd
  obtain ⟨_, hp2, hp3, hp4, _, hp6, _, _, _, hp10⟩ := hprev
  obtain ⟨_, hc2, hc3, hc4, _, hc6, _, _, _, hc10⟩ := hcur
  obtain ⟨m1, m2, m3, m4, m5⟩ := hmono
  simp only [sub64, sub32]
  unfold two64 at *
  unfold two32 at *
  refine ⟨?_, ?_, ?_, ?_, ?_⟩ <;> omega

/-- Witness for `ReadDiff_counter_deltas`: the example store, where
`TotalAlloc` goes from 400 to 1000 and the diff holds 600. -/
theorem ReadDiff_counter_deltas_witness :
    exStore.ReadDiff Diff.zero = some (exDiff, true) ∧
    (exStore.ms 1).TotalAlloc = 1000 ∧ (exStore.ms 0).TotalAlloc = 400 ∧
    exDiff.TotalAlloc = 600 ∧
    (exDiff.TotalAlloc : Int)
      = ((exStore.ms 1).TotalAlloc : Int) - ((exStore.ms 0).TotalAlloc : Int) :=
  ⟨exStore_ReadDiff, rfl, rfl, rfl,
   (ReadDiff_counter_deltas exStore Diff.zero exDiff 0 1 exStore_ReadDiff exStore_slots.1
      exStore_slots.2 exStore_inRange.1 exStore_inRange.2 (by decide)).1⟩

/-- C8: after a successful `ReadDiff`, the gauge fields `Alloc`, `HeapAlloc` and
`HeapObjects` of the diff are those of the current snapshot, whatever the
previous snapshot holds. -/
theorem ReadDiff_gauges (s : Stats) (d d' : Diff) (k2 : Fin 2)
    (h : s.ReadDiff d = some (d', true)) (hc : slot (1 - s.i) = some k2) :
    d'.Alloc = (s.ms k2).Alloc ∧ d'.HeapAlloc = (s.ms k2).HeapAlloc ∧
    d'.HeapObjects = (s.ms k2).HeapObjects := by
  obtain ⟨_, k1', k2', p, _, h2, _, _, hd⟩ := ReadDiff_true h
  rw [hc] at h2
  simp only [Option.some.injEq] at h2
  subst h2 hd
  exact ⟨rfl, rfl, rfl⟩

/-- Witness for `ReadDiff_gauges`: the example store. -/
theorem ReadDiff_gauges_witness :
    exStore.ReadDiff Diff.zero = some (exDiff, true) ∧
    exDiff.Alloc = (exStore.ms 1).Alloc ∧ exDiff.HeapAlloc = (exStore.ms 1).HeapAlloc ∧
    exDiff.HeapObjects = (exStore.ms 1).HeapObjects :=
  ⟨exStore_ReadDiff,
   ReadDiff_gauges exStore Diff.zero exDiff 1 exStore_ReadDiff exStore_slots.2⟩

/-! ## The claims about `Collect` -/

/-- After the samples `pre ++ [a, b]` have been collected in order into a
zero `Stats`, the slot at index `i` holds `a` (the last but one) and the other
slot holds `b` (the last).  Every call of `ReadDiff` that returns then sets
`diff.Delta` to `time(b).Sub(time(a))` and returns `true` exactly when
`time(b) - time(a) ≥ 0`; it does return when the caller's `Pause` is nil or has
capacity at least 256; and the duration is the exact difference when that fits
in a `time.Duration`. -/
theorem collect_then_ReadDiff (pre : List Sample) (a b : Sample) :
    ∃ s k1 k2, collectAll Stats.zero (pre ++ [a, b]) = some s ∧
      slot s.i = some k1 ∧ slot (1 - s.i) = some k2 ∧
      (s.ms k1 = a.2 ∧ s.t k1 = a.1) ∧ (s.ms k2 = b.2 ∧ s.t k2 = b.1) ∧
      (∀ d d' ok, s.ReadDiff d = some (d', ok) →
        d'.Delta = b.1.Sub a.1 ∧ (ok = true ↔ 0 ≤ b.1.ns - a.1.ns)) ∧
      (∀ d, 0 ≤ b.1.ns - a.1.ns → (d.Pause = none ∨ ∃ p, d.Pause = some p ∧ 256 ≤ p.cap) →
        ∃ d', s.ReadDiff d = some (d', true) ∧ d'.Delta = b.1.Sub a.1) ∧
      (minDuration ≤ b.1.ns - a.1.ns → b.1.ns - a.1.ns ≤ maxDuration →
        b.1.Sub a.1 = b.1.ns - a.1.ns) := by
  obtain ⟨s, hs, hi, hf, hlast, hprev⟩ := collectAll_zero_inv (pre ++ [a, b])
  obtain ⟨k1, hk1⟩ := slot_of_mod (pre ++ [a, b]).length
  rw [← hi] at hk1
  obtain ⟨k2, hk2⟩ := slot_of_mod ((pre ++ [a, b]).length + 1)
  have hi2 : (1 : Int) - s.i = ((((pre ++ [a, b]).length + 1) % 2 : Nat) : Int) := by
    rw [hi]
    omega
  rw [← hi2] at hk2
  have hfill : s.filled = true := by
    rw [hf]
    simp
  have ha := hprev pre a b rfl k1 hk1
  have hb := hlast (pre ++ [a]) b (by simp) k2 hk2
  have hpos : 0 ≤ b.1.ns - a.1.ns → 0 ≤ (s.t k2).Sub (s.t k1) := by
    intro h
    rw [hb.2, ha.2]
    exact (Time.Sub_nonneg_iff _ _).2 h
  refine ⟨s, k1, k2, hs, hk1, hk2, ha, hb, ?_, ?_, fun h1 h2 => Time.Sub_exact _ _ h1 h2⟩
  · intro d d' ok h
    cases ok with
    | true =>
      obtain ⟨_, j1, j2, p, g1, g2, hnn, _, hd⟩ := ReadDiff_true h
      rw [hk1] at g1
      rw [hk2] at g2
      simp only [Option.some.injEq] at g1 g2
      subst g1 g2
      rw [hb.2, ha.2] at hnn
      refine ⟨?_, ⟨fun _ => (Time.Sub_nonneg_iff _ _).1 hnn, fun _ => rfl⟩⟩
      rw [hd, hb.2, ha.2]
    | false =>
      rcases ReadDiff_false h with ⟨hnf, _⟩ | ⟨_, j1, j2, g1, g2, hneg, hd⟩
      · rw [hfill] at hnf
        simp at hnf
      · rw [hk1] at g1
        rw [hk2] at g2
        simp only [Option.some.injEq] at g1 g2
        subst g1 g2
        rw [hb.2, ha.2] at hneg
        refine ⟨?_, ⟨fun e => by simp at e, fun hnn => ?_⟩⟩
        · rw [hd, hb.2, ha.2]
        · have := (Time.Sub_nonneg_iff _ _).2 hnn
          omega
  · intro d hnn hcap
    have hc := pauseBuffer_cap d hcap
    obtain ⟨d', hd'⟩ := ReadDiff_succeeds d hfill hk1 hk2 (hpos hnn)
      (le_trans (Nat.min_le_right _ _) hc)
    refine ⟨d', hd', ?_⟩
    obtain ⟨_, j1, j2, p, g1, g2, _, _, hd⟩ := ReadDiff_true hd'
    rw [hk1] at g1
    rw [hk2] at g2
    simp only [Option.some.injEq] at g1 g2
    subst g1 g2
    rw [hd, hb.2, ha.2]

theorem exSamples_ReadDiff :
    (collectAll Stats.zero exSamples).map (fun s => s.ReadDiff Diff.zero)
      = some (some (exDiff, true)) ∧
    (collectAll Stats.zero exSamples).map (fun s => s.ReadDiff exDiffEmptyPause)
      = some none := by
  decide

/-- C5, at the failing input: the two samples of the worked example are
collected into a zero `Stats`; the time difference is 5 s, and the call with a
zero `Diff` returns `true` with `Delta` 5 s, but the call with a `Diff` whose
`Pause` is the empty non-nil slice panics instead of returning `true`. -/
theorem collect_then_ReadDiff_short_pause_panics :
    ∃ s, collectAll Stats.zero exSamples = some s ∧
      0 ≤ (⟨6000000000⟩ : Time).ns - (⟨1000000000⟩ : Time).ns ∧
      s.ReadDiff Diff.zero = some (exDiff, true) ∧ exDiff.Delta = 5000000000 ∧
      s.ReadDiff exDiffEmptyPause = none := by
  have h := exSamples_ReadDiff
  cases hc : collectAll Stats.zero exSamples with
  | none =>
    rw [hc] at h
    simp at h
  | some s =>
    rw [hc] at h
    simp only [Option.map_some', Option.some.injEq] at h
    exact ⟨s, rfl, by decide, h.1, rfl, h.2⟩

/-- C6: after `n` calls of `Collect` on a zero `Stats`, `filled` is true if and
only if `n ≥ 2` and the index `i` is `n mod 2`; after exactly one call,
`ReadDiff` returns `false` and leaves the caller's `Diff` as it was. -/
theorem collect_filled_and_index (xs : List Sample) :
    ∃ s, collectAll Stats.zero xs = some s ∧
      (s.filled = true ↔ 2 ≤ xs.length) ∧ s.i = ((xs.length % 2 : Nat) : Int) ∧
      (xs.length = 1 → ∀ d, s.ReadDiff d = some (d, false)) := by
  obtain ⟨s, hs, hi, hf, _, _⟩ := collectAll_zero_inv xs
  refine ⟨s, hs, ?_, hi, ?_⟩
  · rw [hf]
    simp
  · intro h1 d
    apply ReadDiff_not_filled
    rw [hf, h1]
    rfl

/-! ## The claims about `Diff.String` -/

/-- C9: with newline-free formatting functions, the report of every `Diff`
has a line starting with `Pause time:` if and only if `NumGC > 0`, and a line
starting with `Mean pause time:`, and one starting with
`Pause times (most recent first):`, if and only if `NumGC > 1`. -/
theorem String_pause_lines (R : Fmt) (hR : R.NoNewline) (d : Diff) :
    ∃ text, d.String R = .ok text ∧
      (hasLine text "Pause time" ↔ d.NumGC > 0) ∧
      (hasLine text "Mean pause time" ↔ d.NumGC > 1) ∧
      (hasLine text "Pause times (most recent first)" ↔ d.NumGC > 1) := by
  refine ⟨_, String_eq_join R d, ?_, ?_, ?_⟩
  · rw [hasLine_report_iff hR d _ (by decide)]
    generalize d.NumGC = n
    rcases n with _ | _ | n
    · decide
    · decide
    · rw [reportLabels_of_two_le _ (by omega)]
      exact ⟨fun _ => by omega, fun _ => by decide⟩
  · rw [hasLine_report_iff hR d _ (by decide)]
    generalize d.NumGC = n
    rcases n with _ | _ | n
    · decide
    · decide
    · rw [reportLabels_of_two_le _ (by omega)]
      exact ⟨fun _ => by omega, fun _ => by decide⟩
  · rw [hasLine_report_iff hR d _ (by decide)]
    generalize d.NumGC = n
    rcases n with _ | _ | n
    · decide
    · decide
    · rw [reportLabels_of_two_le _ (by omega)]
      exact ⟨fun _ => by omega, fun _ => by decide⟩

/-- Witness for `String_pause_lines`: the sample formatting functions and the
example `Diff`, whose `NumGC` is 3. -/
theorem String_pause_lines_witness :
    Fmt.sample.NoNewline ∧
    ∃ text, exDiff.String Fmt.sample = .ok text ∧
      (hasLine text "Pause time" ↔ exDiff.NumGC > 0) ∧
      (hasLine text "Mean pause time" ↔ exDiff.NumGC > 1) ∧
      (hasLine text "Pause times (most recent first)" ↔ exDiff.NumGC > 1) :=
  ⟨Fmt.sample_noNewline, String_pause_lines Fmt.sample Fmt.sample_noNewline exDiff⟩

/-- C10: with newline-free formatting functions, the report of every `Diff`
is the concatenation of newline-terminated lines, one per field; each line is
the label with a colon, padded with spaces to exactly 35 characters, followed
by the value; every label with its colon is shorter than 35 characters; the
labels come in the fixed order of `reportLabels`; and there are 8 lines when
`NumGC = 0`, 9 when `NumGC = 1` and 11 when `NumGC ≥ 2`. -/
theorem String_line_format (R : Fmt) (hR : R.NoNewline) (d : Diff) :
    ∃ (text : String) (fields : List (String × String)), d.String R = .ok text ∧
      text = String.join (fields.map (fun f => lineBody f ++ "\n")) ∧
      fields.map Prod.fst =
        [ "Allocated", "Alloc / sec", "Alloc (still in use)", "Heap bytes from system",
          "Heap alloc (still in use)", "Heap alloc objects", "Heap alloc objects / sec",
          "Number of GCs" ]
        ++ (if d.NumGC > 0 then ["Pause time"] else [])
        ++ (if d.NumGC > 1 then ["Mean pause time", "Pause times (most recent first)"]
            else []) ∧
      (∀ f ∈ fields, (f.1 ++ ":").length < 35 ∧ (labelColumn f.1).length = 35 ∧
        (lineBody f).toList = labelColumn f.1 ++ f.2.toList ∧ '\n' ∉ (lineBody f).toList) ∧
      splitLines text.toList = fields.map (fun f => (lineBody f).toList) ∧
      (splitLines text.toList).length = (if d.NumGC = 0 then 8 else if d.NumGC = 1 then 9 else 11)
    := by
  refine ⟨_, reportFields R d, String_eq_join R d, rfl, reportFields_labels R d, ?_,
    splitLines_report hR d, ?_⟩
  · intro f hf
    have hs := (reportLabels_short f.1 (reportFields_label_mem R d f hf)).1
    exact ⟨hs, labelColumn_length f.1 hs, lineBody_toList f, lineBody_noNewline hR d f hf⟩
  · rw [splitLines_report hR d, List.length_map, ← List.length_map (reportFields R d) Prod.fst,
      reportFields_labels, reportLabels_length]

/-- Witness for `String_line_format`: the sample formatting functions and the
example `Diff`. -/
theorem String_line_format_witness :
    Fmt.sample.NoNewline ∧
    ∃ (text : String) (fields : List (String × String)),
      exDiff.String Fmt.sample = .ok text ∧
      text = String.join (fields.map (fun f => lineBody f ++ "\n")) ∧
      fields.map Prod.fst =
        [ "Allocated", "Alloc / sec", "Alloc (still in use)", "Heap bytes from system",
          "Heap alloc (still in use)", "Heap alloc objects", "Heap alloc objects / sec",
          "Number of GCs" ]
        ++ (if exDiff.NumGC > 0 then ["Pause time"] else [])
        ++ (if exDiff.NumGC > 1 then ["Mean pause time", "Pause times (most recent first)"]
            else []) ∧
      (∀ f ∈ fields, (f.1 ++ ":").length < 35 ∧ (labelColumn f.1).length = 35 ∧
        (lineBody f).toList = labelColumn f.1 ++ f.2.toList ∧ '\n' ∉ (lineBody f).toList) ∧
      splitLines text.toList = fields.map (fun f => (lineBody f).toList) ∧
      (splitLines text.toList).length
        = (if exDiff.NumGC = 0 then 8 else if exDiff.NumGC = 1 then 9 else 11) :=
  ⟨Fmt.sample_noNewline, String_line_format Fmt.sample Fmt.sample_noNewline exDiff⟩

/-! ## Lines that every report has -/

theorem reportLabels_zero_subset (n : Nat) : ∀ l ∈ reportLabels 0, l ∈ reportLabels n := by
  intro l hl
  unfold reportLabels at hl ⊢
  simp only [gt_iff_lt, Nat.lt_irrefl, if_false, List.append_nil,
    show ¬ (0 : Nat) > 1 by decide] at hl
  exact List.mem_append_left _ (List.mem_append_left _ hl)

/-- The eight fixed labels have a line in every report. -/
theorem hasLine_fixed_label {R : Fmt} (hR : R.NoNewline) (d : Diff) (L : String)
    (hL : L ∈ reportLabels 0) :
    hasLine (String.join ((reportFields R d).map (fun f => lineBody f ++ "\n"))) L := by
  have h2 := reportLabels_zero_subset 2 L hL
  rw [hasLine_report_iff hR d L (Nat.le_of_lt (reportLabels_short L h2).1)]
  exact ⟨L, reportLabels_zero_subset d.NumGC L hL, List.prefix_append _ _⟩

/-- The line of every field is a line of the report. -/
theorem line_mem_report {R : Fmt} (hR : R.NoNewline) (d : Diff) (f : String × String)
    (hf : f ∈ reportFields R d) :
    labelColumn f.1 ++ f.2.toList
      ∈ splitLines (String.join ((reportFields R d).map (fun f => lineBody f ++ "\n"))).toList := by
  rw [splitLines_report hR d]
  have h : labelColumn f.1 ++ f.2.toList = (lineBody f).toList := (lineBody_toList f).symm
  rw [h]
  exact List.mem_map_of_mem _ hf

/-! ## The claims about `Diff.String`, continued -/

/-- C11, as stated, fails: the report of the example `Diff` with `Delta = 0`
has an `Alloc / sec` line and a `Heap alloc objects / sec` line. -/
theorem String_zero_delta_not_suppressed :
    exDiffZeroDelta.Delta = 0 ∧
    ∃ text, exDiffZeroDelta.String Fmt.sample = .ok text ∧
      hasLine text "Alloc / sec" ∧ hasLine text "Heap alloc objects / sec" :=
  ⟨rfl, _, String_eq_join Fmt.sample exDiffZeroDelta,
   hasLine_fixed_label Fmt.sample_noNewline exDiffZeroDelta _ (by decide),
   hasLine_fixed_label Fmt.sample_noNewline exDiffZeroDelta _ (by decide)⟩

/-- C11, amended: for every `Diff` with `Delta = 0` the report still has the
`Alloc / sec` line and the `Heap alloc objects / sec` line; their values are
the renderings of `float64(TotalAlloc) / secs` and `float64(HeapObjects) / secs`
with `secs` the seconds of a zero duration, and `String` does not panic. -/
theorem String_zero_delta_rates (R : Fmt) (hR : R.NoNewline) (d : Diff) (h0 : d.Delta = 0) :
    ∃ text, d.String R = .ok text ∧
      hasLine text "Alloc / sec" ∧ hasLine text "Heap alloc objects / sec" ∧
      labelColumn "Alloc / sec"
          ++ (R.humanizeBytes (R.toUint64 (.div (.ofUint64 d.TotalAlloc) (.seconds 0)))).toList
        ∈ splitLines text.toList ∧
      labelColumn "Heap alloc objects / sec"
          ++ (R.sprintF2 (.div (.ofUint64 d.HeapObjects) (.seconds 0))).toList
        ∈ splitLines text.toList := by
  refine ⟨_, String_eq_join R d, hasLine_fixed_label hR d _ (by decide),
    hasLine_fixed_label hR d _ (by decide), ?_, ?_⟩
  · rw [← h0]
    exact line_mem_report hR d ("Alloc / sec", _) (by simp [reportFields])
  · rw [← h0]
    exact line_mem_report hR d ("Heap alloc objects / sec", _) (by simp [reportFields])

/-- Witness for `String_zero_delta_rates`: the sample formatting functions and
the example `Diff` with `Delta = 0`. -/
theorem String_zero_delta_rates_witness :
    Fmt.sample.NoNewline ∧ exDiffZeroDelta.Delta = 0 ∧
    ∃ text, exDiffZeroDelta.String Fmt.sample = .ok text ∧
      hasLine text "Alloc / sec" ∧ hasLine text "Heap alloc objects / sec" ∧
      labelColumn "Alloc / sec"
          ++ (Fmt.sample.humanizeBytes (Fmt.sample.toUint64
                (.div (.ofUint64 exDiffZeroDelta.TotalAlloc) (.seconds 0)))).toList
        ∈ splitLines text.toList ∧
      labelColumn "Heap alloc objects / sec"
          ++ (Fmt.sample.sprintF2
                (.div (.ofUint64 exDiffZeroDelta.HeapObjects) (.seconds 0))).toList
        ∈ splitLines text.toList :=
  ⟨Fmt.sample_noNewline, rfl,
   String_zero_delta_rates Fmt.sample Fmt.sample_noNewline exDiffZeroDelta rfl⟩

/-! ## The pause log under the runtime's ring convention -/

/-- After `n` collections the slot of each of the last 256 collections holds
its pause. -/
theorem ringAfter_at (pauseOf : Nat → Nat) : ∀ (n k : Nat), 1 ≤ k → k ≤ n → n < k + 256 →
    ringAfter pauseOf n ⟨(k + 255) % 256, Nat.mod_lt _ (by decide)⟩ = pauseOf k := by
  intro n
  induction n with
  | zero => intro k h1 h2 _; omega
  | succ n ih =>
    intro k h1 h2 h3
    unfold ringAfter
    by_cases hk : k = n + 1
    · subst hk
      simp
    · have hne : (⟨(k + 255) % 256, Nat.mod_lt _ (by decide)⟩ : Fin 256)
          ≠ ⟨(n + 1 + 255) % 256, Nat.mod_lt _ (by decide)⟩ := by
        intro h
        have h' := congrArg Fin.val h
        simp only at h'
        omega
      rw [Function.update_noteq hne]
      exact ih k h1 (by omega) (by omega)

theorem exCur_log : exCur.PauseNs = ringAfter exPauseOf exCur.NumGC := by
  funext j
  revert j
  decide

/-! ## The claims about `ReadDiff`, continued -/

/-- C12: assume the runtime's ring convention: the pause of the `k`-th
completed collection is written to `PauseNs[(k + 255) % 256]` and the current
log reflects collections `1..current.NumGC` (it is `ringAfter pauseOf
current.NumGC`); `NumGC` is that cumulative `uint32` count, so the previous
snapshot, read earlier, has `previous.NumGC ≤ current.NumGC`.  Then after a
successful `ReadDiff`, for every `i < len(diff.Pause)`, `diff.Pause[i]` is the
pause (as a `time.Duration`) of collection number `current.NumGC - i`, a
collection after the previous snapshot; and when `PausesMissing` is false,
`Pause` lists exactly the pauses of collections
`current.NumGC, current.NumGC - 1, …, previous.NumGC + 1`, in that order. -/
theorem ReadDiff_pause_collections (pauseOf : Nat → Nat) (s : Stats) (d d' : Diff)
    (k1 k2 : Fin 2) (h : s.ReadDiff d = some (d', true)) (hp : slot s.i = some k1)
    (hc : slot (1 - s.i) = some k2)
    (hlog : (s.ms k2).PauseNs = ringAfter pauseOf (s.ms k2).NumGC)
    (hrange : (s.ms k2).NumGC < two32) (hmono : (s.ms k1).NumGC ≤ (s.ms k2).NumGC) :
    (∀ i, i < d'.pauses.length →
      (s.ms k1).NumGC < (s.ms k2).NumGC - i ∧
      d'.pauses[i]? = some (toInt64 (pauseOf ((s.ms k2).NumGC - i)))) ∧
    (d'.PausesMissing = false →
      d'.pauses = (List.range ((s.ms k2).NumGC - (s.ms k1).NumGC)).map
        (fun i => toInt64 (pauseOf ((s.ms k2).NumGC - i)))) := by
  obtain ⟨_, k1', k2', p, h1, h2, _, _, hd⟩ := ReadDiff_true h
  rw [hp] at h1
  rw [hc] at h2
  simp only [Option.some.injEq] at h1 h2
  subst h1 h2 hd
  have hsub : sub32 (s.ms k2).NumGC (s.ms k1).NumGC = (s.ms k2).NumGC - (s.ms k1).NumGC := by
    unfold sub32
    unfold two32 at *
    omega
  have hentry : ∀ i, i < min ((s.ms k2).NumGC - (s.ms k1).NumGC) 256 →
      pauseEntry (s.ms k2) i = toInt64 (pauseOf ((s.ms k2).NumGC - i)) := by
    intro i hi
    unfold pauseEntry
    rw [hlog]
    have hidx : (⟨((s.ms k2).NumGC + 255 - i) % 256, Nat.mod_lt _ (by decide)⟩ : Fin 256)
        = ⟨((s.ms k2).NumGC - i + 255) % 256, Nat.mod_lt _ (by decide)⟩ := by
      apply Fin.ext
      simp only
      congr 1
      omega
    rw [hidx, ringAfter_at pauseOf _ _ (by omega) (by omega) (by omega)]
  simp only [Diff.pauses, List.length_map, List.length_range, hsub]
  constructor
  · intro i hi
    refine ⟨by omega, ?_⟩
    rw [List.getElem?_map, List.getElem?_range hi]
    simp only [Option.map_some', Option.some.injEq]
    exact hentry i hi
  · intro hm
    simp only [gt_iff_lt, decide_eq_false_iff_not, not_lt] at hm
    rw [Nat.min_eq_left hm]
    apply List.map_congr_left
    intro i hi
    rw [List.mem_range] at hi
    exact hentry i (by omega)

/-- Witness for `ReadDiff_pause_collections`: the example store; the three
pauses are those of collections 13, 12 and 11. -/
theorem ReadDiff_pause_collections_witness :
    exStore.ReadDiff Diff.zero = some (exDiff, true) ∧
    (exStore.ms 1).PauseNs = ringAfter exPauseOf (exStore.ms 1).NumGC ∧
    (exStore.ms 1).NumGC < two32 ∧ (exStore.ms 0).NumGC ≤ (exStore.ms 1).NumGC ∧
    (exDiff.PausesMissing = false →
      exDiff.pauses = (List.range ((exStore.ms 1).NumGC - (exStore.ms 0).NumGC)).map
        (fun i => toInt64 (exPauseOf ((exStore.ms 1).NumGC - i)))) :=
  ⟨exStore_ReadDiff, exCur_log, by decide, by decide,
   (ReadDiff_pause_collections exPauseOf exStore Diff.zero exDiff 0 1 exStore_ReadDiff
      exStore_slots.1 exStore_slots.2 exCur_log (by decide) (by decide)).2⟩

/-- On a filled store with both indices in range, `ReadDiff` panics exactly
when the elapsed time is `≥ 0` and the slice it works on has less capacity than
the number of pauses to store. -/
theorem ReadDiff_panics_iff {s : Stats} (d : Diff) {k1 k2 : Fin 2} (hf : s.filled = true)
    (h1 : slot s.i = some k1) (h2 : slot (1 - s.i) = some k2) :
    s.ReadDiff d = none ↔
      0 ≤ (s.t k2).Sub (s.t k1) ∧
      (pauseBuffer d).cap < min (sub32 (s.ms k2).NumGC (s.ms k1).NumGC) 256 := by
  by_cases hneg : (s.t k2).Sub (s.t k1) < 0
  · rw [ReadDiff_negative d hf h1 h2 hneg]
    constructor
    · intro h; cases h
    · rintro ⟨h, _⟩; omega
  · by_cases hcap : min (sub32 (s.ms k2).NumGC (s.ms k1).NumGC) 256 ≤ (pauseBuffer d).cap
    · obtain ⟨d', hd'⟩ := ReadDiff_succeeds d hf h1 h2 (by omega) hcap
      rw [hd']
      constructor
      · intro h; cases h
      · rintro ⟨_, h⟩; omega
    · refine ⟨fun _ => ⟨by omega, by omega⟩, fun _ => ?_⟩
      cases hr : s.ReadDiff d with
      | none => rfl
      | some r =>
        exfalso
        obtain ⟨r1, ok⟩ := r
        cases ok with
        | true =>
          obtain ⟨_, j1, j2, p, g1, g2, _, hres, _⟩ := ReadDiff_true hr
          rw [h1] at g1
          rw [h2] at g2
          simp only [Option.some.injEq] at g1 g2
          subst g1 g2
          exact hcap (reslice_some hres).1
        | false =>
          rcases ReadDiff_false hr with ⟨hnf, _⟩ | ⟨_, j1, j2, g1, g2, hlt, _⟩
          · rw [hf] at hnf
            simp at hnf
          · rw [h1] at g1
            rw [h2] at g2
            simp only [Option.some.injEq] at g1 g2
            subst g1 g2
            exact hneg hlt

/-- C13, at the failing input: on the example store (three collections in
the interval) a call with a `Diff` whose `Pause` is the empty non-nil slice
panics at `diff.Pause[:n]` instead of returning a boolean. -/
theorem ReadDiff_short_pause_panics :
    exDiffEmptyPause.Pause = some ⟨[], []⟩ ∧
    (pauseBuffer exDiffEmptyPause).reslice 3 = none ∧
    exStore.ReadDiff exDiffEmptyPause = none := by
  decide

theorem agree_of_ReadDiff_true {s : Stats} {d1 d2 r1 r2 : Diff}
    (h1 : s.ReadDiff d1 = some (r1, true)) (h2 : s.ReadDiff d2 = some (r2, true)) :
    r1.agree r2 := by
  obtain ⟨_, a1, a2, p, ha1, ha2, _, _, hr1⟩ := ReadDiff_true h1
  obtain ⟨_, b1, b2, q, hb1, hb2, _, _, hr2⟩ := ReadDiff_true h2
  rw [ha1] at hb1
  rw [ha2] at hb2
  simp only [Option.some.injEq] at hb1 hb2
  subst hb1 hb2 hr1 hr2
  simp [Diff.agree, Diff.pauses]

/-- C14: on a store on which `ReadDiff` succeeds (filled, elapsed time `≥ 0`),
the calls with any two `Diff` values whose `Pause` is nil or has capacity at
least 256, and the call with the zero `Diff`, all return `true`, and their
results agree in every field, `Pause` included (length and elements). -/
theorem ReadDiff_independent_of_incoming (s : Stats) (d1 d2 : Diff) (k1 k2 : Fin 2)
    (hf : s.filled = true) (hp : slot s.i = some k1) (hc : slot (1 - s.i) = some k2)
    (hpos : 0 ≤ (s.t k2).Sub (s.t k1))
    (hd1 : d1.Pause = none ∨ ∃ p, d1.Pause = some p ∧ 256 ≤ p.cap)
    (hd2 : d2.Pause = none ∨ ∃ p, d2.Pause = some p ∧ 256 ≤ p.cap) :
    ∃ r1 r2 r0, s.ReadDiff d1 = some (r1, true) ∧ s.ReadDiff d2 = some (r2, true) ∧
      s.ReadDiff Diff.zero = some (r0, true) ∧
      r1.agree r2 ∧ r1.agree r0 ∧ r2.agree r0 := by
  have hcap : ∀ d : Diff, (d.Pause = none ∨ ∃ p, d.Pause = some p ∧ 256 ≤ p.cap) →
      ∃ r, s.ReadDiff d = some (r, true) := fun d hd =>
    ReadDiff_succeeds d hf hp hc hpos (le_trans (Nat.min_le_right _ _) (pauseBuffer_cap d hd))
  obtain ⟨r1, h1⟩ := hcap d1 hd1
  obtain ⟨r2, h2⟩ := hcap d2 hd2
  obtain ⟨r0, h0⟩ := hcap Diff.zero (Or.inl rfl)
  exact ⟨r1, r2, r0, h1, h2, h0, agree_of_ReadDiff_true h1 h2, agree_of_ReadDiff_true h1 h0,
    agree_of_ReadDiff_true h2 h0⟩

/-- Witness for `ReadDiff_independent_of_incoming`: the example store, called
with the `Diff` left by an earlier call and with a `Diff` full of unrelated
values. -/
theorem ReadDiff_independent_of_incoming_witness :
    exStore.filled = true ∧ 0 ≤ (exStore.t 1).Sub (exStore.t 0) ∧
    (∃ p, exDiffStale.Pause = some p ∧ 256 ≤ p.cap) ∧
    (∃ p, exDiffJunk.Pause = some p ∧ 256 ≤ p.cap) ∧
    ∃ r1 r2 r0, exStore.ReadDiff exDiffStale = some (r1, true) ∧
      exStore.ReadDiff exDiffJunk = some (r2, true) ∧
      exStore.ReadDiff Diff.zero = some (r0, true) ∧
      r1.agree r2 ∧ r1.agree r0 ∧ r2.agree r0 :=
  ⟨rfl, by decide, ⟨_, rfl, by decide⟩, ⟨_, rfl, by decide⟩,
   ReadDiff_independent_of_incoming exStore exDiffStale exDiffJunk 0 1 rfl exStore_slots.1
     exStore_slots.2 (by decide) (Or.inr ⟨_, rfl, by decide⟩) (Or.inr ⟨_, rfl, by decide⟩)⟩

/-- C15: `sbytes` returns normally on a `uint64` and on a `float64`, and
panics with `"bad type"` on a value of any other dynamic type; `Diff.String`
returns normally for every `Diff`, so none of its calls of `sbytes` reaches the
panic. -/
theorem sbytes_panics_only_on_other_types (R : Fmt) :
    (∀ n, sbytes R (.uint64 n) = .ok (R.humanizeBytes n)) ∧
    (∀ x, sbytes R (.float64 x) = .ok (R.humanizeBytes (R.toUint64 x))) ∧
    (∀ t, sbytes R (.other t) = .error "bad type") ∧
    (∀ v, (∃ msg, sbytes R v = .error msg) ↔ ∃ t, v = .other t) ∧
    (∀ d : Diff, ∃ text, d.String R = .ok text) ∧
    (∀ d : Diff, d.String R ≠ .error "bad type") := by
  refine ⟨fun _ => rfl, fun _ => rfl, fun _ => rfl, ?_, fun d => ⟨_, String_eq_join R d⟩, ?_⟩
  · intro v
    cases v with
    | float64 x => simp [sbytes]
    | uint64 n => simp [sbytes]
    | other t => simp [sbytes]
  · intro d h
    rw [String_eq_join R d] at h
    cases h

theorem exHugeStore_ReadDiff : exHugeStore.ReadDiff Diff.zero = some (exHugeDiff, true) := by
  decide

/-- C16, as stated, fails: on `exHugeStore` the current `PauseTotalNs` is
above the previous one, yet `diff.PauseTotal` is negative, because the
difference `2^63` does not fit in a `time.Duration`. -/
theorem ReadDiff_pauseTotal_negative :
    exHugeStore.ReadDiff Diff.zero = some (exHugeDiff, true) ∧
    (exHugeStore.ms 0).PauseTotalNs ≤ (exHugeStore.ms 1).PauseTotalNs ∧
    (exHugeStore.ms 1).PauseTotalNs < two64 ∧
    exHugeDiff.PauseTotal < 0 :=
  ⟨exHugeStore_ReadDiff, by decide, by decide, by decide⟩

/-- C16, amended: after a successful `ReadDiff`, `diff.PauseTotal` is the
signed 64-bit reinterpretation of `(current.PauseTotalNs - previous.PauseTotalNs)
mod 2^64`; whenever the two values are `uint64`,
`current.PauseTotalNs ≥ previous.PauseTotalNs` and the difference is below
`2^63`, `diff.PauseTotal` is `≥ 0` and equals the exact difference. -/
theorem ReadDiff_pauseTotal (s : Stats) (d d' : Diff) (k1 k2 : Fin 2)
    (h : s.ReadDiff d = some (d', true)) (hp : slot s.i = some k1)
    (hc : slot (1 - s.i) = some k2) :
    (d'.PauseTotal =
      if (((s.ms k2).PauseTotalNs : Int) - ((s.ms k1).PauseTotalNs : Int)) % 18446744073709551616
          < 9223372036854775808
      then (((s.ms k2).PauseTotalNs : Int) - ((s.ms k1).PauseTotalNs : Int))
          % 18446744073709551616
      else (((s.ms k2).PauseTotalNs : Int) - ((s.ms k1).PauseTotalNs : Int))
          % 18446744073709551616 - 18446744073709551616) ∧
    ((s.ms k2).PauseTotalNs < two64 → (s.ms k1).PauseTotalNs ≤ (s.ms k2).PauseTotalNs →
      (s.ms k2).PauseTotalNs - (s.ms k1).PauseTotalNs < 9223372036854775808 →
      0 ≤ d'.PauseTotal ∧
      d'.PauseTotal = ((s.ms k2).PauseTotalNs : Int) - ((s.ms k1).PauseTotalNs : Int)) := by
  obtain ⟨_, k1', k2', p, h1, h2, _, _, hd⟩ := ReadDiff_true h
  rw [hp] at h1
  rw [hc] at h2
  simp only [Option.some.injEq] at h1 h2
  subst h1 h2 hd
  simp only [toInt64, sub64]
  unfold two64
  constructor
  · split <;> split <;> omega
  · intro hr hm hlt
    split <;> omega

/-- Witness for `ReadDiff_pauseTotal`: the example store, whose pause total
goes from 55 ms to 91 ms. -/
theorem ReadDiff_pauseTotal_witness :
    exStore.ReadDiff Diff.zero = some (exDiff, true) ∧
    (exStore.ms 1).PauseTotalNs = 91000000 ∧ (exStore.ms 0).PauseTotalNs = 55000000 ∧
    0 ≤ exDiff.PauseTotal ∧
    exDiff.PauseTotal
      = ((exStore.ms 1).PauseTotalNs : Int) - ((exStore.ms 0).PauseTotalNs : Int) :=
  ⟨exStore_ReadDiff, rfl, rfl,
   (ReadDiff_pauseTotal exStore Diff.zero exDiff 0 1 exStore_ReadDiff exStore_slots.1
      exStore_slots.2).2 (by decide) (by decide) (by decide)⟩

/-- C17: for every `uint32` value of `current.NumGC` and every loop index
`i < min(delta, 256)`, the dividend `int(current.NumGC) - i + 255` is
non-negative and fits in 64 bits, the index `j` it gives satisfies
`0 ≤ j < 256`, and the read `current.PauseNs[j]` does not panic. -/
theorem pause_index_in_bounds (cur : MemStats) (delta i : Nat)
    (hn : cur.NumGC < two32) (hi : i < min delta 256) :
    0 ≤ (cur.NumGC : Int) - (i : Int) + 255 ∧
    (cur.NumGC : Int) - (i : Int) + 255 ≤ maxDuration ∧
    0 ≤ Int.tmod ((cur.NumGC : Int) - (i : Int) + 255) 256 ∧
    Int.tmod ((cur.NumGC : Int) - (i : Int) + 255) 256 < 256 ∧
    ∃ v, pauseNsAt cur (Int.tmod ((cur.NumGC : Int) - (i : Int) + 255) 256) = some v := by
  have hi' : i ≤ 255 := by omega
  have h0 : (0 : Int) ≤ (cur.NumGC : Int) - (i : Int) + 255 := by omega
  have hj : Int.tmod ((cur.NumGC : Int) - (i : Int) + 255) 256
      = ((cur.NumGC : Int) - (i : Int) + 255) % 256 := Int.tmod_eq_emod h0 (by decide)
  refine ⟨h0, ?_, ?_, ?_, _, pauseNsAt_loop_index cur i hi'⟩
  · unfold two32 at hn
    unfold maxDuration
    omega
  · rw [hj]
    omega
  · rw [hj]
    omega

/-- Witness for `pause_index_in_bounds`: `NumGC = 0` and the last loop index
255. -/
theorem pause_index_in_bounds_witness :
    MemStats.zero.NumGC < two32 ∧ 255 < min 300 256 ∧
    0 ≤ (MemStats.zero.NumGC : Int) - ((255 : Nat) : Int) + 255 ∧
    (MemStats.zero.NumGC : Int) - ((255 : Nat) : Int) + 255 ≤ maxDuration ∧
    0 ≤ Int.tmod ((MemStats.zero.NumGC : Int) - ((255 : Nat) : Int) + 255) 256 ∧
    Int.tmod ((MemStats.zero.NumGC : Int) - ((255 : Nat) : Int) + 255) 256 < 256 ∧
    ∃ v, pauseNsAt MemStats.zero
      (Int.tmod ((MemStats.zero.NumGC : Int) - ((255 : Nat) : Int) + 255) 256) = some v :=
  ⟨by decide, by decide,
   pause_index_in_bounds MemStats.zero 300 255 (by decide) (by decide)⟩

theorem exStoreBackwards_ReadDiff :
    exStoreBackwards.ReadDiffState exDiffJunk
      = some (exStoreBackwards, exDiffJunkBack, false) := by
  have h : exStoreBackwards.ReadDiff exDiffJunk = some (exDiffJunkBack, false) := by decide
  unfold Stats.ReadDiffState
  rw [h]
  rfl

/-- C18: whenever `ReadDiff` returns `false`, the store is as it was and
every field of the caller's `Diff` other than `Delta` is unchanged; when the
store is not filled `Delta` is unchanged too, and otherwise `Delta` holds the
negative elapsed time. -/
theorem ReadDiff_false_frame (s s' : Stats) (d d' : Diff)
    (h : s.ReadDiffState d = some (s', d', false)) :
    s' = s ∧ d' = { d with Delta := d'.Delta } ∧
    (s.filled = false → d' = d) ∧
    (s.filled = true → d'.Delta < 0 ∧
      ∃ k1 k2, slot s.i = some k1 ∧ slot (1 - s.i) = some k2 ∧
        d'.Delta = (s.t k2).Sub (s.t k1)) := by
  unfold Stats.ReadDiffState at h
  cases hr : s.ReadDiff d with
  | none => rw [hr] at h; simp at h
  | some r =>
    rw [hr] at h
    simp only [Option.map_some', Option.some.injEq, Prod.mk.injEq] at h
    obtain ⟨hs, hd, hok⟩ := h
    have hr' : s.ReadDiff d = some (d', false) := by
      rw [hr, ← hd, ← hok]
    refine ⟨hs.symm, ?_, ?_, ?_⟩
    · rcases ReadDiff_false hr' with ⟨_, he⟩ | ⟨_, _, _, _, _, _, he⟩
      · rw [he]
      · rw [he]
    · intro hnf
      rcases ReadDiff_false hr' with ⟨_, he⟩ | ⟨hf, _⟩
      · exact he
      · rw [hf] at hnf
        simp at hnf
    · intro hf
      rcases ReadDiff_false hr' with ⟨hnf, _⟩ | ⟨_, j1, j2, g1, g2, hneg, he⟩
      · rw [hf] at hnf
        simp at hnf
      · refine ⟨?_, j1, j2, g1, g2, ?_⟩
        · rw [he]
          exact hneg
        · rw [he]

/-- Witness for `ReadDiff_false_frame`: a store whose clock went back, called
with a `Diff` full of unrelated values. -/
theorem ReadDiff_false_frame_witness :
    exStoreBackwards.ReadDiffState exDiffJunk
      = some (exStoreBackwards, exDiffJunkBack, false) ∧
    exStoreBackwards = exStoreBackwards ∧
    exDiffJunkBack = { exDiffJunk with Delta := exDiffJunkBack.Delta } ∧
    (exStoreBackwards.filled = false → exDiffJunkBack = exDiffJunk) ∧
    (exStoreBackwards.filled = true → exDiffJunkBack.Delta < 0 ∧
      ∃ k1 k2, slot exStoreBackwards.i = some k1 ∧ slot (1 - exStoreBackwards.i) = some k2 ∧
        exDiffJunkBack.Delta = (exStoreBackwards.t k2).Sub (exStoreBackwards.t k1)) :=
  ⟨exStoreBackwards_ReadDiff,
   ReadDiff_false_frame exStoreBackwards exStoreBackwards exDiffJunk exDiffJunkBack
     exStoreBackwards_ReadDiff⟩

/-! ## The mean pause line -/

theorem bmod_tdiv_of_range (a : Int) (n : Nat) (hn : 1 < n)
    (h1 : minDuration ≤ a) (h2 : a ≤ maxDuration) :
    Int.bmod (Int.tdiv a (n : Int)) 18446744073709551616 = Int.tdiv a (n : Int) := by
  unfold minDuration at h1
  unfold maxDuration at h2
  have hb : -9223372036854775808 ≤ Int.tdiv a (n : Int) ∧
      Int.tdiv a (n : Int) ≤ 9223372036854775807 := by
    rcases Int.le_total 0 a with ha | ha
    · rw [Int.tdiv_eq_ediv ha (by omega)]
      have := Int.ediv_le_self (n : Int) ha
      have := Int.ediv_nonneg ha (show (0 : Int) ≤ (n : Int) by omega)
      omega
    · have hna : 0 ≤ -a := by omega
      have e : Int.tdiv a (n : Int) = -(Int.tdiv (-a) (n : Int)) := by
        rw [Int.neg_tdiv]
        omega
      rw [e, Int.tdiv_eq_ediv hna (by omega)]
      have := Int.ediv_le_self (n : Int) hna
      have := Int.ediv_nonneg hna (show (0 : Int) ≤ (n : Int) by omega)
      omega
  generalize Int.tdiv a (n : Int) = q at hb
  rw [Int.bmod_def]
  omega

/-- Only the field labelled `Mean pause time` starts a line with that label. -/
theorem mean_label_unique : ∀ l ∈ reportLabels 2,
    ("Mean pause time" ++ ":").toList <+: labelColumn l → l = "Mean pause time" := by
  decide

theorem reportFields_mean (R : Fmt) (d : Diff) (f : String × String)
    (hf : f ∈ reportFields R d) (hname : f.1 = "Mean pause time") :
    f.2 = R.durationString
      (Int.bmod (Int.tdiv d.PauseTotal (d.NumGC : Int)) 18446744073709551616) := by
  unfold reportFields at hf
  simp only [List.mem_append, List.mem_cons, List.mem_singleton, List.not_mem_nil,
    or_false] at hf
  rcases hf with (((h | h | h | h | h | h | h | h) | h) | h)
  · subst h; simp at hname
  · subst h; simp at hname
  · subst h; simp at hname
  · subst h; simp at hname
  · subst h; simp at hname
  · subst h; simp at hname
  · subst h; simp at hname
  · subst h; simp at hname
  · split at h
    · simp only [List.mem_singleton] at h; subst h; simp at hname
    · simp at h
  · split at h
    · simp only [List.mem_cons, List.mem_singleton, List.not_mem_nil, or_false] at h
      rcases h with h | h
      · subst h; rfl
      · subst h; simp at hname
    · simp at h

/-- C19: for every `Diff` with `NumGC > 1` (and `PauseTotal` a
`time.Duration`), the division `PauseTotal / Duration(NumGC)` does not panic
and is the integer quotient truncated toward zero; the report has exactly one
such line: the label `Mean pause time` followed by the rendering of that
quotient, whose divisor is `NumGC` whatever `Pause` holds.  `String` returns
normally for every `Diff`, so no division by zero is ever evaluated. -/
theorem String_mean_pause (R : Fmt) (hR : R.NoNewline) (d : Diff) (hn : d.NumGC > 1)
    (hrange : minDuration ≤ d.PauseTotal ∧ d.PauseTotal ≤ maxDuration) :
    divDuration d.PauseTotal (d.NumGC : Int) = .ok (Int.tdiv d.PauseTotal (d.NumGC : Int)) ∧
    (∃ text, d.String R = .ok text ∧
      labelColumn "Mean pause time"
          ++ (R.durationString (Int.tdiv d.PauseTotal (d.NumGC : Int))).toList
        ∈ splitLines text.toList ∧
      ∀ l ∈ splitLines text.toList, ("Mean pause time" ++ ":").toList <+: l →
        l = labelColumn "Mean pause time"
          ++ (R.durationString (Int.tdiv d.PauseTotal (d.NumGC : Int))).toList) ∧
    (∀ e : Diff, ∃ t, e.String R = .ok t) := by
  have hb := bmod_tdiv_of_range d.PauseTotal d.NumGC hn hrange.1 hrange.2
  refine ⟨?_, ⟨_, String_eq_join R d, ?_, ?_⟩, fun e => ⟨_, String_eq_join R e⟩⟩
  · unfold divDuration
    rw [if_neg (by omega), hb]
  · have hmem : (("Mean pause time",
        R.durationString (Int.bmod (Int.tdiv d.PauseTotal (d.NumGC : Int))
          18446744073709551616)) : String × String) ∈ reportFields R d := by
      simp [reportFields, hn]
    have := line_mem_report hR d _ hmem
    rw [hb] at this
    exact this
  · intro l hl hpre
    rw [splitLines_report hR d] at hl
    obtain ⟨f, hf, rfl⟩ := List.mem_map.1 hl
    have hlab := reportFields_label_mem R d f hf
    have hs := (reportLabels_short f.1 hlab).1
    have hcol : ("Mean pause time" ++ ":").toList <+: labelColumn f.1 := by
      rw [lineBody_toList] at hpre
      refine (isPrefix_append_iff_of_length_le ?_).1 hpre
      rw [labelColumn_length f.1 hs]
      decide
    have hname := mean_label_unique f.1 hlab hcol
    have hval := reportFields_mean R d f hf hname
    rw [hb] at hval
    rw [lineBody_toList, ← hval, hname]
    rfl

/-- Witness for `String_mean_pause`: a `Diff` with 300 collections, 256
recorded pauses and a pause total of 3001 ns; the mean is `3001 / 300 = 10`. -/
theorem String_mean_pause_witness :
    Fmt.sample.NoNewline ∧ exDiffBusy.NumGC > 1 ∧ exDiffBusy.pauses.length = 256 ∧
    Int.tdiv exDiffBusy.PauseTotal (exDiffBusy.NumGC : Int) = 10 ∧
    divDuration exDiffBusy.PauseTotal (exDiffBusy.NumGC : Int)
      = .ok (Int.tdiv exDiffBusy.PauseTotal (exDiffBusy.NumGC : Int)) :=
  ⟨Fmt.sample_noNewline, by decide, by decide, by decide,
   (String_mean_pause Fmt.sample Fmt.sample_noNewline exDiffBusy (by decide)
      ⟨by decide, by decide⟩).1⟩

end Memstats
